import Mathlib

/-!
Verification of the AGP-to-FASTA builder (ragoo2_agp2fasta.py).

This file gives a shallow embedding of the script's core: the per-line
validation state machine of main(), the coverage check is_covered, and the
incremental FASTA emission.  The two external collaborators (pysam's
sequence fetch and the reverse-complement primitive) are passed in as
function parameters fetch / rc; everything else is translated line by line
from the Python source.

Python errors are modelled by Err: log_err raises a RuntimeError carrying
the 1-based line number, while a failing int() conversion raises a bare
ValueError carrying no line information (Err.valueError).

Output written to stdout is modelled as a list of typed chunks, in write
order; render maps the chunk list to the exact string the script writes.
-/

/-- Errors raised by the script.  tagged models the RuntimeError raised by
log_err (carrying the 1-based line number and the message); valueError
models the untagged ValueError raised by a failing int() conversion. -/
inductive Err where
  | tagged (n : ℕ) (msg : String)
  | valueError
deriving DecidableEq

/-- Model of log_err(n, s): it raises an error carrying the 1-based line
number n and the human-readable reason s. -/
def log_err (n : ℕ) (s : String) : Err := Err.tagged n s

/-- Digits-only string body to a natural number (helper for parseInt). -/
def digitsToNat (cs : List Char) : Option ℕ :=
  if cs = [] then none
  else if cs.all Char.isDigit then
    some (cs.foldl (fun a c => a * 10 + (c.toNat - 48)) 0)
  else none

/-- Strip whitespace from both ends of a character list (helper for
parseInt, mirroring how Python's int() ignores surrounding
whitespace). -/
def pyStrip (cs : List Char) : List Char :=
  ((cs.dropWhile Char.isWhitespace).reverse.dropWhile Char.isWhitespace).reverse

/-- Model of Python's int(str): surrounding whitespace is ignored, an
optional sign precedes a nonempty digit string; anything else raises
ValueError (here: none).  Underscore digit separators are not modelled;
no input in this development uses them. -/
def parseInt (s : String) : Option ℤ :=
  match pyStrip s.data with
  | '-' :: rest => (digitsToNat rest).map (fun v => -(v : ℤ))
  | '+' :: rest => (digitsToNat rest).map (fun v => (v : ℤ))
  | l => (digitsToNat l).map (fun v => (v : ℤ))

/-- Model of Python's str.rstrip(): drop trailing whitespace. -/
def pyRstrip (s : String) : String :=
  String.mk ((s.data.reverse.dropWhile Char.isWhitespace).reverse)

/-- Splitting a character list at every occurrence of a separator (helper
for pySplitChar); the accumulator holds the current piece reversed. -/
def splitCharAux (sep : Char) : List Char → List Char → List (List Char)
  | [], acc => [acc.reverse]
  | c :: cs, acc =>
    if c = sep then acc.reverse :: splitCharAux sep cs []
    else splitCharAux sep cs (c :: acc)

/-- Model of Python's str.split(sep) for a one-character separator: split
at each occurrence, keeping empty pieces. -/
def pySplitChar (sep : Char) (s : String) : List String :=
  (splitCharAux sep s.data []).map String.mk

/-- Model of Python's str.split(tab), the body-line field splitter. -/
def pySplitTab (s : String) : List String := pySplitChar '\t' s

/-- Model of Python's line.startswith(hash): does the line begin with the
comment marker character. -/
def pyStartsHash (s : String) : Bool :=
  match s.data with
  | '#' :: _ => true
  | _ => false

/-- Lexicographic order on pairs of integers: the order Python's sorted()
uses on a list of 2-tuples of ints. -/
def tup_le (p q : ℤ × ℤ) : Prop := p.1 < q.1 ∨ (p.1 = q.1 ∧ p.2 ≤ q.2)

instance : DecidableRel tup_le := fun p q => by
  unfold tup_le; infer_instance

/-- The adjacency scan inside is_covered: for each adjacent pair of the
(already sorted) interval list, the end of one must equal the start of the
next. -/
def chainOk : List (ℤ × ℤ) → Bool
  | a :: b :: t => a.2 == b.1 && chainOk (b :: t)
  | _ => true

/-- Model of is_covered(s): sort the intervals (Python's sorted on int
pairs is the lexicographic sort) and check that every adjacent pair is
contiguous (end of one equals start of the next). -/
def is_covered (s : List (ℤ × ℤ)) : Bool :=
  chainOk (List.insertionSort tup_le s)

/-- Allowed component types (field 5). -/
def allowed_comp_types : List String :=
  ["A", "D", "F", "G", "O", "P", "W", "N", "U"]

/-- Allowed linkage values for gap records. -/
def allowed_linkage_types : List String := ["yes", "no"]

/-- Allowed gap types for gap records. -/
def allowed_gap_types : List String :=
  ["scaffold", "contig", "centromere", "short_arm", "heterochromatin",
   "telomere", "repeat", "contamination"]

/-- Allowed linkage evidence tokens for gap records. -/
def allowed_evidence_types : List String :=
  ["na", "paired-ends", "align_genus", "align_xgenus", "align_trnscpt",
   "within_clone", "clone_contig", "map", "pcr", "proximity_ligation",
   "strobe", "unspecified"]

/-- The rolling state of main()'s loop: previous part number, current
object identifier (None before the first body line), the set of object
identifiers already seen (a Python set; modelled as a list, duplicates
never arise because an identifier is only added when it is not a member),
the accumulated 0-based half-open intervals of the current object, whether
a body line has been seen, and whether no object header has been written
yet. -/
structure AgpSt where
  prevPid : ℤ
  currObj : Option String
  seenObjs : List String
  currIntervals : List (ℤ × ℤ)
  pastComments : Bool
  isFirst : Bool
deriving DecidableEq

/-- The initial state of main()'s loop. -/
def initSt : AgpSt :=
  { prevPid := 0, currObj := none, seenObjs := [], currIntervals := [],
    pastComments := false, isFirst := true }

/-- One unit of output written to stdout, in write order.  The combined
header write "\n>obj\n" of the script is decomposed as sep followed by
header; render restores the exact text. -/
inductive Chunk where
  | sep
  | header (obj : String)
  | seq (s : String)
  | nl
deriving DecidableEq

/-- Text of one output chunk. -/
def render1 : Chunk → String
  | Chunk.sep => "\n"
  | Chunk.header o => ">" ++ o ++ "\n"
  | Chunk.seq s => s
  | Chunk.nl => "\n"

/-- Exact stdout text of a chunk list. -/
def render (cs : List Chunk) : String := String.join (cs.map render1)

/-- The sequence texts (component sequences and gap runs) of a chunk list,
excluding headers and separator/trailing newlines. -/
def seqParts (cs : List Chunk) : List Chunk :=
  cs.filter (fun c => match c with | Chunk.seq _ => true | _ => false)

/-- Component branch of the loop body (comp_type not in N,U): parse the
component coordinates (int() may raise ValueError), validate them, then
dispatch on the orientation: the allowed forward tokens emit the fetched
sequence verbatim, "-" emits its reverse complement, anything else is an
invalid orientation.  Returns the chunks written and either the component
length comp_len (comp_end - (comp_beg - 1)) or the error raised. -/
def compBranch (fetch rc : String → String) (n : ℕ)
    (cid cbS ceS ori : String) : List Chunk × Except Err ℤ :=
  match parseInt cbS, parseInt ceS with
  | some cb, some ce =>
    if cb < 1 ∨ ce < 1 then
      ([], Except.error (log_err n "component coordinates should be 1-indexed and positive"))
    else if cb > ce then
      ([], Except.error (log_err n "beginning component coordinate should be less than or equal to the end coordinate"))
    else if ori ∈ (["+", "?", "0", "na"] : List String) then
      ([Chunk.seq (fetch cid)], Except.ok (ce - (cb - 1)))
    else if ori = "-" then
      ([Chunk.seq (rc (fetch cid))], Except.ok (ce - (cb - 1)))
    else
      ([], Except.error (log_err n "invalid orientation"))
  | _, _ => ([], Except.error Err.valueError)

/-- Gap branch of the loop body (comp_type N or U): parse the gap length
(int() may raise ValueError), validate gap type, linkage, positivity, the
fixed 100 bp length for type U, and the linkage evidence tokens, then
emit gap_length copies of the gap character N.  Returns the chunks
written and either comp_len (the gap length) or the error raised. -/
def gapBranch (n : ℕ)
    (compType gapLenS gapType linkage evidence : String) :
    List Chunk × Except Err ℤ :=
  match parseInt gapLenS with
  | some compLen =>
    if gapType ∉ allowed_gap_types then
      ([], Except.error (log_err n "invalid gap type"))
    else if linkage ∉ allowed_linkage_types then
      ([], Except.error (log_err n "invalid linkage field"))
    else if compLen < 1 then
      ([], Except.error (log_err n "gap length must be >0"))
    else if compType = "U" ∧ compLen ≠ 100 then
      ([], Except.error (log_err n "gaps of type 'U' must be 100 bp"))
    else if ¬ (pySplitChar ';' evidence).all
        (fun e => e ∈ allowed_evidence_types) then
      ([], Except.error (log_err n "invalid linkage evidence"))
    else
      ([Chunk.seq (String.mk (List.replicate compLen.toNat 'N'))], Except.ok compLen)
  | none => ([], Except.error Err.valueError)

/-- State update applied to every record once the part-number check has
passed: record the part number and append the record's 0-based half-open
object interval to the accumulated intervals. -/
def bumpState (st : AgpSt) (pid objBeg objEnd : ℤ) : AgpSt :=
  { st with prevPid := pid,
            currIntervals := st.currIntervals ++ [(objBeg - 1, objEnd)] }

/-- Rest of the loop body after the object-transition block: the part
number continuity check against prevPid, the interval accounting, the
component-type table check, the branch dispatch, and the final span-length
consistency check.  hdr is the chunk list already written by the
transition block; the state passed in already reflects the transition
updates.  Returns (chunks written, state at return or at the raise,
error if raised). -/
def recordRest (fetch rc : String → String) (n : ℕ) (st : AgpSt)
    (hdr : List Chunk) (objBeg objEnd pid objLen : ℤ)
    (f4 f5 f6 f7 f8 : String) : List Chunk × AgpSt × Option Err :=
  if pid - st.prevPid ≠ 1 then
    (hdr, st, some (log_err n "non-sequential part_numbers"))
  else if f4 ∉ allowed_comp_types then
    (hdr, bumpState st pid objBeg objEnd,
     some (log_err n ("invalid component type: " ++ f4)))
  else
    match (if f4 ≠ "N" ∧ f4 ≠ "U" then compBranch fetch rc n f5 f6 f7 f8
           else gapBranch n f4 f5 f6 f7 f8) with
    | (cs, Except.error e) => (hdr ++ cs, bumpState st pid objBeg objEnd, some e)
    | (cs, Except.ok compLen) =>
      if compLen ≠ objLen then
        (hdr ++ cs, bumpState st pid objBeg objEnd,
         some (log_err n "object and component coordinates have inconsistent lengths"))
      else
        (hdr ++ cs, bumpState st pid objBeg objEnd, none)

/-- State reset performed by a successful object transition, directly
after the header write: zero the previous part number, switch the current
object, add it to the seen set, clear the accumulated intervals, clear the
first-object flag. -/
def resetState (st : AgpSt) (obj : String) : AgpSt :=
  { st with prevPid := 0, currObj := some obj,
            seenObjs := obj :: st.seenObjs,
            currIntervals := [], isFirst := false }

/-- Loop body for one parsed body record: object coordinate checks, the
object-transition block (start-at-1 check, seen-object check, coverage
check of the previous object, header write, state reset), then
recordRest. -/
def processRecord (fetch rc : String → String) (n : ℕ) (st : AgpSt)
    (obj : String) (objBeg objEnd pid : ℤ)
    (f4 f5 f6 f7 f8 : String) : List Chunk × AgpSt × Option Err :=
  if objBeg < 1 ∨ objEnd < 1 then
    ([], st, some (log_err n "object coordinates should be 1-indexed and positive"))
  else if objBeg > objEnd then
    ([], st, some (log_err n "beginning object coordinate should be <= the end coordinate"))
  else if st.currObj ≠ some obj then
    if objBeg ≠ 1 then
      ([], st, some (log_err n "all objects should start with '1'"))
    else if obj ∈ st.seenObjs then
      ([], st, some (log_err n "object identifier out of order"))
    else if ¬ st.isFirst ∧ is_covered st.currIntervals = false then
      ([], st, some (log_err n ("some positions in " ++ (st.currObj.getD "") ++ " are not accounted for or overlap")))
    else
      recordRest fetch rc n (resetState st obj)
        ((if st.isFirst then [] else [Chunk.sep]) ++ [Chunk.header obj])
        objBeg objEnd pid (objEnd - (objBeg - 1)) f4 f5 f6 f7 f8
  else
    recordRest fetch rc n st [] objBeg objEnd pid (objEnd - (objBeg - 1)) f4 f5 f6 f7 f8

/-- Loop body for one body line already split into fields: the 9-field
check, the empty-field check, and the int() conversions of object_begin,
object_end and part_number (a failing conversion raises the untagged
ValueError), then processRecord. -/
def processBody (fetch rc : String → String) (n : ℕ) (st : AgpSt)
    (fields : List String) : List Chunk × AgpSt × Option Err :=
  if fields.length ≠ 9 then
    ([], st, some (log_err n "lines should have 9 tab delimited fields"))
  else if ¬ (fields.all (fun f => f ≠ "")) then
    ([], st, some (log_err n "detected empty field"))
  else
    match parseInt (fields.getD 1 ""), parseInt (fields.getD 2 ""),
          parseInt (fields.getD 3 "") with
    | some objBeg, some objEnd, some pid =>
      processRecord fetch rc n st (fields.getD 0 "") objBeg objEnd pid
        (fields.getD 4 "") (fields.getD 5 "") (fields.getD 6 "")
        (fields.getD 7 "") (fields.getD 8 "")
    | _, _, _ => ([], st, some Err.valueError)

/-- Loop body for one raw input line: comment lines are no-ops before the
first body line and fatal after it; a body line sets past_comments, is
rstripped, split on tabs, and handed to processBody. -/
def processLine (fetch rc : String → String) (n : ℕ) (st : AgpSt)
    (line : String) : List Chunk × AgpSt × Option Err :=
  if pyStartsHash line then
    if st.pastComments then
      ([], st, some (log_err n "illegal comment in AGP body"))
    else
      ([], st, none)
  else
    processBody fetch rc n { st with pastComments := true }
      (pySplitTab (pyRstrip line))

/-- The whole loop of main(): process the lines in order, numbering them
from n, stopping at the first error.  Returns all chunks written, the
state at the stop point, and the error if one was raised. -/
def runLines (fetch rc : String → String) :
    List String → ℕ → AgpSt → List Chunk × AgpSt × Option Err
  | [], _, st => ([], st, none)
  | l :: ls, n, st =>
    match processLine fetch rc n st l with
    | (cs, st', none) =>
      let r := runLines fetch rc ls (n + 1) st'
      (cs ++ r.1, r.2.1, r.2.2)
    | r => r

/-- The whole of main() after argument handling: run the loop from line 1
and the initial state; on success write the single trailing newline (the
final write of the script).  On an error the trailing newline is never
written, and the chunks already written stay written. -/
def runAgp (fetch rc : String → String) (lines : List String) :
    List Chunk × AgpSt × Option Err :=
  match runLines fetch rc lines 1 initSt with
  | (cs, st, none) => (cs ++ [Chunk.nl], st, none)
  | r => r

/-- Decompose a chunk stream into the total length of sequence text
written before the first header, and, for each header in order, the object
id together with the total length of sequence text following it up to the
next header (separators and the trailing newline are not sequence
text). -/
def splitBlocks : List Chunk → ℕ × List (String × ℕ)
  | [] => (0, [])
  | Chunk.seq s :: rest =>
    ((splitBlocks rest).1 + s.length, (splitBlocks rest).2)
  | Chunk.header o :: rest =>
    (0, (o, (splitBlocks rest).1) :: (splitBlocks rest).2)
  | _ :: rest => splitBlocks rest

/-- Per-line form of the collaborator hypothesis of the total-length
claim: for a component record the collaborator returns for the referenced
component_id a sequence whose length the record declares
(component_end - (component_begin - 1)); all other lines impose
nothing. -/
def fetchLenOk (fetch : String → String) (line : String) : Bool :=
  if pyStartsHash line then true
  else
    match pySplitTab (pyRstrip line) with
    | [_, _, _, _, t, cid, cbS, ceS, _] =>
      if t = "N" ∨ t = "U" then true
      else
        match parseInt cbS, parseInt ceS with
        | some cb, some ce => ((fetch cid).length : ℤ) == ce - (cb - 1)
        | _, _ => true
    | _ => true

/-- Objects completed during an accepted run: each time a body line
switches away from an existing current object, that object's identifier
and its full accumulated interval list are recorded (in order). -/
def histOf (fetch rc : String → String) :
    List String → ℕ → AgpSt → List (String × List (ℤ × ℤ))
  | [], _, _ => []
  | l :: ls, n, st =>
    match processLine fetch rc n st l with
    | (_, st', none) =>
      (match st.currObj with
       | some o => if st'.currObj = some o then [] else [(o, st.currIntervals)]
       | none => []) ++ histOf fetch rc ls (n + 1) st'
    | (_, _, some _) => []

/-- All objects of an accepted run, each with its accumulated intervals:
the completed ones in order, then the final object (which the program
never coverage-checks). -/
def fullHist (fetch rc : String → String) (lines : List String)
    (st' : AgpSt) : List (String × List (ℤ × ℤ)) :=
  histOf fetch rc lines 1 initSt ++
    (match st'.currObj with
     | some o => [(o, st'.currIntervals)]
     | none => [])

/-- Well-formedness of an object's accumulated interval list: every
interval is nonempty with a nonnegative start (object coordinates are
1-based and validated), and the first accumulated interval starts at 0
(its record passed the start-at-1 transition check). -/
def WFints (I : List (ℤ × ℤ)) : Prop :=
  (∀ p ∈ I, 0 ≤ p.1 ∧ p.1 < p.2) ∧ (∀ p, I.head? = some p → p.1 = 0)

/-- Invariant of main()'s loop state, true initially and preserved by
every accepted line. -/
def WF (st : AgpSt) : Prop :=
  (st.isFirst = true ↔ st.currObj = none) ∧
  (st.currObj = none → st.currIntervals = []) ∧
  (st.currObj ≠ none → st.currIntervals ≠ []) ∧
  WFints st.currIntervals

/-- Total length of a list of half-open intervals. -/
def sumLens (s : List (ℤ × ℤ)) : ℤ := (s.map (fun p => p.2 - p.1)).sum

/-- Largest interval end coordinate (0 for the empty list): for a covered
object this is the object length, the largest object_end among the
object's records. -/
def maxEnd (s : List (ℤ × ℤ)) : ℤ := (s.map Prod.snd).foldr max 0

/-- Number of intervals of s containing the position x (with multiplicity:
an exact tiling covers each position exactly once). -/
def mult (s : List (ℤ × ℤ)) (x : ℤ) : ℕ :=
  s.countP (fun p => decide (p.1 ≤ x ∧ x < p.2))

/-- End coordinate of the last interval of the list, d for the empty
list. -/
def lastEnd : List (ℤ × ℤ) → ℤ → ℤ
  | [], d => d
  | [p], _ => p.2
  | _ :: q :: t, d => lastEnd (q :: t) d

instance : IsTotal (ℤ × ℤ) tup_le :=
  ⟨by intro a b; unfold tup_le; omega⟩

instance : IsTrans (ℤ × ℤ) tup_le :=
  ⟨by intro a b c; unfold tup_le; omega⟩

instance : IsAntisymm (ℤ × ℤ) tup_le := by
  constructor
  intro a b h1 h2
  obtain ⟨a1, a2⟩ := a
  obtain ⟨b1, b2⟩ := b
  unfold tup_le at h1 h2
  simp only [Prod.mk.injEq]
  constructor <;> omega

lemma chainOk_iff_chain (l : List (ℤ × ℤ)) :
    chainOk l = true ↔ List.Chain' (fun a b => a.2 = b.1) l := by
  induction l with
  | nil => simp [chainOk]
  | cons a t ih =>
    cases t with
    | nil => simp [chainOk]
    | cons b t' =>
      rw [chainOk, List.chain'_cons, Bool.and_eq_true, beq_iff_eq, ih]

lemma maxEnd_cons (p : ℤ × ℤ) (t : List (ℤ × ℤ)) :
    maxEnd (p :: t) = max p.2 (maxEnd t) := by
  simp [maxEnd]

lemma le_maxEnd {s : List (ℤ × ℤ)} {p : ℤ × ℤ} (h : p ∈ s) :
    p.2 ≤ maxEnd s := by
  induction s with
  | nil => cases h
  | cons q t ih =>
    rw [maxEnd_cons]
    rcases List.mem_cons.mp h with rfl | h
    · exact le_max_left _ _
    · exact le_trans (ih h) (le_max_right _ _)

lemma foldr_max_perm {l₁ l₂ : List ℤ} (h : l₁.Perm l₂) :
    l₁.foldr max 0 = l₂.foldr max 0 := by
  induction h with
  | nil => rfl
  | cons x _ ih => simp [ih]
  | swap x y l => simp [max_left_comm]
  | trans _ _ ih₁ ih₂ => rw [ih₁, ih₂]

lemma maxEnd_perm {s t : List (ℤ × ℤ)} (h : s.Perm t) : maxEnd s = maxEnd t :=
  foldr_max_perm (h.map Prod.snd)

lemma sumLens_perm {s t : List (ℤ × ℤ)} (h : s.Perm t) : sumLens s = sumLens t :=
  (h.map _).sum_eq

lemma mult_perm {s t : List (ℤ × ℤ)} (h : s.Perm t) (x : ℤ) :
    mult s x = mult t x :=
  h.countP_eq _

lemma mult_eq_zero_of_lt_fst {s : List (ℤ × ℤ)} {x : ℤ}
    (h : ∀ p ∈ s, x < p.1) : mult s x = 0 :=
  List.countP_eq_zero.mpr (fun p hp => by
    have := h p hp
    simp only [decide_eq_true_eq]
    omega)

lemma chain_lt_lastEnd : ∀ (rest : List (ℤ × ℤ)) (c b : ℤ),
    (∀ p ∈ (c, b) :: rest, p.1 < p.2) →
    List.Chain' (fun a b => a.2 = b.1) ((c, b) :: rest) →
    c < lastEnd ((c, b) :: rest) 0
  | [], c, b, hne, _ => by
    have := hne (c, b) (by simp)
    simpa [lastEnd] using this
  | (a', b') :: rest', c, b, hne, hch => by
    have h1 : b = a' := (List.chain'_cons.mp hch).1
    have ih := chain_lt_lastEnd rest' a' b'
      (fun p hp => hne p (List.mem_cons_of_mem _ hp))
      (List.chain'_cons.mp hch).2
    have hcb : c < b := hne (c, b) (by simp)
    have hl : lastEnd ((c, b) :: (a', b') :: rest') 0
        = lastEnd ((a', b') :: rest') 0 := rfl
    omega

lemma chain_mult : ∀ (rest : List (ℤ × ℤ)) (c b x : ℤ),
    (∀ p ∈ (c, b) :: rest, p.1 < p.2) →
    List.Chain' (fun a b => a.2 = b.1) ((c, b) :: rest) →
    mult ((c, b) :: rest) x
      = if c ≤ x ∧ x < lastEnd ((c, b) :: rest) 0 then 1 else 0
  | [], c, b, x, hne, _ => by
    simp [mult, List.countP_cons, lastEnd, decide_eq_true_eq]
  | (a', b') :: rest', c, b, x, hne, hch => by
    have h1 : b = a' := (List.chain'_cons.mp hch).1
    have hne' : ∀ p ∈ (a', b') :: rest', p.1 < p.2 :=
      fun p hp => hne p (List.mem_cons_of_mem _ hp)
    have hch' := (List.chain'_cons.mp hch).2
    have ih := chain_mult rest' a' b' x hne' hch'
    have hlt := chain_lt_lastEnd rest' a' b' hne' hch'
    have hcb : c < b := hne (c, b) (by simp)
    have hl : lastEnd ((c, b) :: (a', b') :: rest') 0
        = lastEnd ((a', b') :: rest') 0 := rfl
    have hm : mult ((c, b) :: (a', b') :: rest') x
        = mult ((a', b') :: rest') x
          + if c ≤ x ∧ x < b then 1 else 0 := by
      simp [mult, List.countP_cons, decide_eq_true_eq]
    rw [hm, ih, hl]
    split_ifs <;> omega

lemma chain_sumLens : ∀ (rest : List (ℤ × ℤ)) (c b : ℤ),
    (∀ p ∈ (c, b) :: rest, p.1 < p.2) →
    List.Chain' (fun a b => a.2 = b.1) ((c, b) :: rest) →
    sumLens ((c, b) :: rest) = lastEnd ((c, b) :: rest) 0 - c
  | [], c, b, _, _ => by simp [sumLens, lastEnd]
  | (a', b') :: rest', c, b, hne, hch => by
    have h1 : b = a' := (List.chain'_cons.mp hch).1
    have hne' : ∀ p ∈ (a', b') :: rest', p.1 < p.2 :=
      fun p hp => hne p (List.mem_cons_of_mem _ hp)
    have hch' := (List.chain'_cons.mp hch).2
    have ih := chain_sumLens rest' a' b' hne' hch'
    have hs : sumLens ((c, b) :: (a', b') :: rest')
        = (b - c) + sumLens ((a', b') :: rest') := by
      simp [sumLens]
    have hl : lastEnd ((c, b) :: (a', b') :: rest') 0
        = lastEnd ((a', b') :: rest') 0 := rfl
    omega

lemma chain_maxEnd : ∀ (rest : List (ℤ × ℤ)) (c b : ℤ),
    (∀ p ∈ (c, b) :: rest, p.1 < p.2) →
    List.Chain' (fun a b => a.2 = b.1) ((c, b) :: rest) →
    0 ≤ c →
    maxEnd ((c, b) :: rest) = lastEnd ((c, b) :: rest) 0
  | [], c, b, hne, _, hc => by
    have := hne (c, b) (by simp)
    have : maxEnd [(c, b)] = max b 0 := by simp [maxEnd]
    simp only [lastEnd]
    omega
  | (a', b') :: rest', c, b, hne, hch, hc => by
    have h1 : b = a' := (List.chain'_cons.mp hch).1
    have hne' : ∀ p ∈ (a', b') :: rest', p.1 < p.2 :=
      fun p hp => hne p (List.mem_cons_of_mem _ hp)
    have hch' := (List.chain'_cons.mp hch).2
    have hcb : c < b := hne (c, b) (by simp)
    have ih := chain_maxEnd rest' a' b' hne' hch' (by omega)
    have hlt := chain_lt_lastEnd rest' a' b' hne' hch'
    have hl : lastEnd ((c, b) :: (a', b') :: rest') 0
        = lastEnd ((a', b') :: rest') 0 := rfl
    rw [maxEnd_cons, ih, hl]
    omega

lemma tiling_chain : ∀ (rest : List (ℤ × ℤ)) (c b : ℤ),
    List.Sorted tup_le ((c, b) :: rest) →
    (∀ p ∈ (c, b) :: rest, p.1 < p.2) →
    (∀ x, mult ((c, b) :: rest) x
      = if c ≤ x ∧ x < maxEnd ((c, b) :: rest) then 1 else 0) →
    List.Chain' (fun a b => a.2 = b.1) ((c, b) :: rest)
  | [], c, b, _, _, _ => by simp
  | (a', b') :: rest', c, b, hsort, hne, hmult => by
    have hsort' : List.Sorted tup_le ((a', b') :: rest') :=
      (List.sorted_cons.mp hsort).2
    have hle : tup_le (c, b) (a', b') :=
      (List.sorted_cons.mp hsort).1 _ (by simp)
    have hca : c ≤ a' := by unfold tup_le at hle; omega
    have hcb : c < b := hne (c, b) (by simp)
    have hab : a' < b' := hne (a', b') (by simp)
    have hrestfst : ∀ p ∈ rest', a' ≤ p.1 := by
      intro p hp
      have := (List.sorted_cons.mp hsort').1 p hp
      unfold tup_le at this; omega
    rcases lt_trichotomy a' b with h1 | h1 | h1
    · -- overlap: position a' is covered twice
      exfalso
      have ht := hmult a'
      have h2 : mult ((c, b) :: (a', b') :: rest') a'
          = mult rest' a'
            + (if a' ≤ a' ∧ a' < b' then 1 else 0)
            + (if c ≤ a' ∧ a' < b then 1 else 0) := by
        simp [mult, List.countP_cons, decide_eq_true_eq]
      rw [h2] at ht
      split_ifs at ht <;> omega
    · -- contiguous: recurse
      have hME : maxEnd ((c, b) :: (a', b') :: rest')
          = maxEnd ((a', b') :: rest') := by
        rw [maxEnd_cons]
        have : b' ≤ maxEnd ((a', b') :: rest') :=
          @le_maxEnd ((a', b') :: rest') (a', b') (by simp)
        omega
      have hm' : ∀ x, mult ((a', b') :: rest') x
          = if a' ≤ x ∧ x < maxEnd ((a', b') :: rest') then 1 else 0 := by
        intro x
        have hx := hmult x
        have h2 : mult ((c, b) :: (a', b') :: rest') x
            = mult ((a', b') :: rest') x
              + (if c ≤ x ∧ x < b then 1 else 0) := by
          simp [mult, List.countP_cons, decide_eq_true_eq]
        rw [h2, hME] at hx
        by_cases hxb : x < b
        · have hz : mult ((a', b') :: rest') x = 0 :=
            mult_eq_zero_of_lt_fst (by
              intro p hp
              rcases List.mem_cons.mp hp with rfl | hp
              · omega
              · have := hrestfst p hp; omega)
          rw [hz]
          split_ifs <;> omega
        · split_ifs at hx <;> split_ifs <;> omega
      exact List.chain'_cons.mpr ⟨h1.symm, tiling_chain rest' a' b' hsort' (fun p hp => hne p (List.mem_cons_of_mem _ hp)) hm'⟩
    · -- gap: position b is covered zero times but lies below maxEnd
      exfalso
      have ht := hmult b
      have h2 : mult ((c, b) :: (a', b') :: rest') b
          = mult ((a', b') :: rest') b
            + (if c ≤ b ∧ b < b then 1 else 0) := by
        simp [mult, List.countP_cons, decide_eq_true_eq]
      have hz : mult ((a', b') :: rest') b = 0 :=
        mult_eq_zero_of_lt_fst (by
          intro p hp
          rcases List.mem_cons.mp hp with rfl | hp
          · omega
          · have := hrestfst p hp; omega)
      have hbm : b' ≤ maxEnd ((c, b) :: (a', b') :: rest') :=
        @le_maxEnd ((c, b) :: (a', b') :: rest') (a', b') (by simp)
      rw [h2, hz] at ht
      split_ifs at ht <;> omega

lemma sorted_head_zero {s : List (ℤ × ℤ)} (hpos : ∀ p ∈ s, 0 ≤ p.1)
    {e : ℤ} (h0 : (0, e) ∈ s) :
    ∃ b rest, List.insertionSort tup_le s = (0, b) :: rest := by
  have hperm : (List.insertionSort tup_le s).Perm s :=
    List.perm_insertionSort _ _
  have hmem : (0, e) ∈ List.insertionSort tup_le s := hperm.mem_iff.mpr h0
  have hsort := List.sorted_insertionSort tup_le s
  cases hs : List.insertionSort tup_le s with
  | nil => rw [hs] at hmem; cases hmem
  | cons q t =>
    obtain ⟨q1, q2⟩ := q
    rw [hs] at hmem hsort
    have hq1 : q1 = 0 := by
      rcases List.mem_cons.mp hmem with heq | hmem'
      · have : q1 = 0 := by
          have := congrArg Prod.fst heq
          simpa using this.symm
        exact this
      · have hle := (List.sorted_cons.mp hsort).1 _ hmem'
        have hq1' : 0 ≤ q1 := hpos _ (hperm.mem_iff.mp (hs ▸ List.mem_cons_self _ _))
        unfold tup_le at hle
        simp only at hle
        omega
    exact ⟨q2, t, by rw [hq1]⟩

/-- The coverage check is equivalent to exact tiling: for a list of
half-open intervals each nonempty with nonnegative start, one of which
starts at 0, is_covered succeeds iff every position below the largest end
is covered by exactly one interval and every other position by none. -/
lemma is_covered_iff_mult {s : List (ℤ × ℤ)}
    (hwf : ∀ p ∈ s, 0 ≤ p.1 ∧ p.1 < p.2) {e : ℤ} (h0 : (0, e) ∈ s) :
    (is_covered s = true
      ↔ ∀ x : ℤ, mult s x = if 0 ≤ x ∧ x < maxEnd s then 1 else 0) := by
  obtain ⟨b, rest, hs⟩ := sorted_head_zero (fun p hp => (hwf p hp).1) h0
  have hperm : (List.insertionSort tup_le s).Perm s :=
    List.perm_insertionSort _ _
  have hsorted := List.sorted_insertionSort tup_le s
  have hwf' : ∀ p ∈ (0, b) :: rest, p.1 < p.2 := by
    intro p hp
    exact (hwf p (hperm.mem_iff.mp (hs ▸ hp))).2
  have hmE : maxEnd s = maxEnd ((0, b) :: rest) :=
    maxEnd_perm (hs ▸ hperm.symm)
  have hmult : ∀ x, mult s x = mult ((0, b) :: rest) x :=
    fun x => mult_perm (hs ▸ hperm.symm) x
  constructor
  · intro hcov x
    have hch : List.Chain' (fun a b => a.2 = b.1) ((0, b) :: rest) := by
      rw [← hs]
      exact (chainOk_iff_chain _).mp (by rw [is_covered] at hcov; exact hcov)
    have h1 := chain_mult rest 0 b x hwf' hch
    have h2 := chain_maxEnd rest 0 b hwf' hch le_rfl
    rw [hmult, h1, hmE, h2]
  · intro hm
    have hm' : ∀ x, mult ((0, b) :: rest) x
        = if 0 ≤ x ∧ x < maxEnd ((0, b) :: rest) then 1 else 0 := by
      intro x
      rw [← hmult, ← hmE]
      exact hm x
    have hch := tiling_chain rest 0 b (hs ▸ hsorted) hwf' hm'
    rw [is_covered, hs]
    exact (chainOk_iff_chain _).mpr hch

/-- For a covered interval list (nonempty intervals with nonnegative
starts, one starting at 0) the total interval length equals the largest
end coordinate. -/
lemma sumLens_eq_maxEnd_of_covered {s : List (ℤ × ℤ)}
    (hwf : ∀ p ∈ s, 0 ≤ p.1 ∧ p.1 < p.2) {e : ℤ} (h0 : (0, e) ∈ s)
    (hcov : is_covered s = true) : sumLens s = maxEnd s := by
  obtain ⟨b, rest, hs⟩ := sorted_head_zero (fun p hp => (hwf p hp).1) h0
  have hperm : (List.insertionSort tup_le s).Perm s :=
    List.perm_insertionSort _ _
  have hwf' : ∀ p ∈ (0, b) :: rest, p.1 < p.2 := by
    intro p hp
    exact (hwf p (hperm.mem_iff.mp (hs ▸ hp))).2
  have hch : List.Chain' (fun a b => a.2 = b.1) ((0, b) :: rest) := by
    rw [← hs]
    exact (chainOk_iff_chain _).mp (by rw [is_covered] at hcov; exact hcov)
  have h1 := chain_sumLens rest 0 b hwf' hch
  have h2 := chain_maxEnd rest 0 b hwf' hch le_rfl
  have h3 : sumLens s = sumLens ((0, b) :: rest) :=
    sumLens_perm (hs ▸ hperm.symm)
  have h4 : maxEnd s = maxEnd ((0, b) :: rest) :=
    maxEnd_perm (hs ▸ hperm.symm)
  omega

lemma exists_nine {α : Type} (l : List α) (h : l.length = 9) :
    ∃ a b c d e f g i j, l = [a, b, c, d, e, f, g, i, j] := by
  obtain ⟨a, l, rfl⟩ := List.exists_of_length_succ l h
  obtain ⟨b, l, rfl⟩ := List.exists_of_length_succ l (by simpa using h)
  obtain ⟨c, l, rfl⟩ := List.exists_of_length_succ l (by simpa using h)
  obtain ⟨d, l, rfl⟩ := List.exists_of_length_succ l (by simpa using h)
  obtain ⟨e, l, rfl⟩ := List.exists_of_length_succ l (by simpa using h)
  obtain ⟨f, l, rfl⟩ := List.exists_of_length_succ l (by simpa using h)
  obtain ⟨g, l, rfl⟩ := List.exists_of_length_succ l (by simpa using h)
  obtain ⟨i, l, rfl⟩ := List.exists_of_length_succ l (by simpa using h)
  obtain ⟨j, l, rfl⟩ := List.exists_of_length_succ l (by simpa using h)
  have : l = [] := List.eq_nil_of_length_eq_zero (by simpa using h)
  subst this
  exact ⟨a, b, c, d, e, f, g, i, j, rfl⟩

lemma compBranch_ok {fetch rc : String → String} {n : ℕ}
    {cid cbS ceS ori : String} {cs : List Chunk} {compLen : ℤ}
    (hrc : ∀ t, (rc t).length = t.length)
    (h : compBranch fetch rc n cid cbS ceS ori = (cs, Except.ok compLen)) :
    ∃ s cb ce, parseInt cbS = some cb ∧ parseInt ceS = some ce ∧
      compLen = ce - (cb - 1) ∧ cs = [Chunk.seq s] ∧
      s.length = (fetch cid).length := by
  cases hcb : parseInt cbS with
  | none => simp [compBranch, hcb] at h
  | some cb =>
    cases hce : parseInt ceS with
    | none => simp [compBranch, hcb, hce] at h
    | some ce =>
      simp only [compBranch, hcb, hce] at h
      by_cases hco : cb < 1 ∨ ce < 1
      · rw [if_pos hco] at h; simp at h
      · rw [if_neg hco] at h
        by_cases hbe : cb > ce
        · rw [if_pos hbe] at h; simp at h
        · rw [if_neg hbe] at h
          by_cases hori : ori ∈ (["+", "?", "0", "na"] : List String)
          · rw [if_pos hori] at h
            simp only [Prod.mk.injEq, Except.ok.injEq] at h
            exact ⟨fetch cid, cb, ce, rfl, rfl, h.2.symm, h.1.symm, rfl⟩
          · rw [if_neg hori] at h
            by_cases hneg : ori = "-"
            · rw [if_pos hneg] at h
              simp only [Prod.mk.injEq, Except.ok.injEq] at h
              exact ⟨rc (fetch cid), cb, ce, rfl, rfl, h.2.symm, h.1.symm, hrc _⟩
            · rw [if_neg hneg] at h; simp at h

lemma gapBranch_ok {n : ℕ} {t f5 f6 f7 f8 : String} {cs : List Chunk}
    {compLen : ℤ}
    (h : gapBranch n t f5 f6 f7 f8 = (cs, Except.ok compLen)) :
    1 ≤ compLen ∧
      ∃ s : String, cs = [Chunk.seq s] ∧ (s.length : ℤ) = compLen := by
  cases hg : parseInt f5 with
  | none => simp [gapBranch, hg] at h
  | some g =>
    simp only [gapBranch, hg] at h
    by_cases h1 : f6 ∉ allowed_gap_types
    · rw [if_pos h1] at h; simp at h
    · rw [if_neg h1] at h
      by_cases h2 : f7 ∉ allowed_linkage_types
      · rw [if_pos h2] at h; simp at h
      · rw [if_neg h2] at h
        by_cases h3 : g < 1
        · rw [if_pos h3] at h; simp at h
        · rw [if_neg h3] at h
          by_cases h4 : t = "U" ∧ g ≠ 100
          · rw [if_pos h4] at h; simp at h
          · rw [if_neg h4] at h
            by_cases h5 : ¬ (pySplitChar ';' f8).all
                (fun e => e ∈ allowed_evidence_types)
            · rw [if_pos h5] at h; simp at h
            · rw [if_neg h5] at h
              simp only [Prod.mk.injEq, Except.ok.injEq] at h
              obtain ⟨hcs, hlen⟩ := h
              subst hlen
              refine ⟨by omega, _, hcs.symm, ?_⟩
              simp [String.length]
              omega


lemma recordRest_ok {fetch rc : String → String} {n : ℕ} {st : AgpSt}
    {hdr cs : List Chunk} {objBeg objEnd pid objLen : ℤ}
    {f4 f5 f6 f7 f8 : String} {st' : AgpSt}
    (h : recordRest fetch rc n st hdr objBeg objEnd pid objLen f4 f5 f6 f7 f8
      = (cs, st', none)) :
    pid = st.prevPid + 1 ∧ st' = bumpState st pid objBeg objEnd ∧
    ∃ bcs compLen, cs = hdr ++ bcs ∧ compLen = objLen ∧
      ((f4 ≠ "N" ∧ f4 ≠ "U")
          ∧ compBranch fetch rc n f5 f6 f7 f8 = (bcs, Except.ok compLen)
        ∨ ¬(f4 ≠ "N" ∧ f4 ≠ "U")
          ∧ gapBranch n f4 f5 f6 f7 f8 = (bcs, Except.ok compLen)) := by
  rw [recordRest] at h
  by_cases h1 : pid - st.prevPid ≠ 1
  · rw [if_pos h1] at h; simp at h
  · rw [if_neg h1] at h
    by_cases h2 : f4 ∉ allowed_comp_types
    · rw [if_pos h2] at h; simp at h
    · rw [if_neg h2] at h
      cases hb : (if f4 ≠ "N" ∧ f4 ≠ "U" then compBranch fetch rc n f5 f6 f7 f8
                  else gapBranch n f4 f5 f6 f7 f8) with
      | mk bcs r =>
        rw [hb] at h
        cases r with
        | error e => simp at h
        | ok compLen =>
          dsimp only at h
          by_cases h3 : compLen ≠ objLen
          · rw [if_pos h3] at h; simp at h
          · rw [if_neg h3] at h
            simp only [Prod.mk.injEq] at h
            obtain ⟨hcs, hst, -⟩ := h
            refine ⟨by omega, hst.symm, bcs, compLen, hcs.symm, by omega, ?_⟩
            by_cases h4 : f4 ≠ "N" ∧ f4 ≠ "U"
            · exact Or.inl ⟨h4, by rw [← hb, if_pos h4]⟩
            · exact Or.inr ⟨h4, by rw [← hb, if_neg h4]⟩

lemma processRecord_ok {fetch rc : String → String} {n : ℕ} {st : AgpSt}
    {obj : String} {objBeg objEnd pid : ℤ} {f4 f5 f6 f7 f8 : String}
    {cs : List Chunk} {st' : AgpSt}
    (h : processRecord fetch rc n st obj objBeg objEnd pid f4 f5 f6 f7 f8
      = (cs, st', none)) :
    1 ≤ objBeg ∧ objBeg ≤ objEnd ∧
    ∃ hdr bcs compLen st₁,
      cs = hdr ++ bcs ∧ compLen = objEnd - (objBeg - 1) ∧
      st' = bumpState st₁ pid objBeg objEnd ∧ pid = st₁.prevPid + 1 ∧
      ((f4 ≠ "N" ∧ f4 ≠ "U")
          ∧ compBranch fetch rc n f5 f6 f7 f8 = (bcs, Except.ok compLen)
        ∨ ¬(f4 ≠ "N" ∧ f4 ≠ "U")
          ∧ gapBranch n f4 f5 f6 f7 f8 = (bcs, Except.ok compLen)) ∧
      ((st.currObj = some obj ∧ st₁ = st ∧ hdr = [])
        ∨ (st.currObj ≠ some obj ∧ objBeg = 1 ∧ obj ∉ st.seenObjs ∧
           (st.isFirst = false → is_covered st.currIntervals = true) ∧
           st₁ = resetState st obj ∧
           hdr = (if st.isFirst then [] else [Chunk.sep]) ++ [Chunk.header obj])) := by
  rw [processRecord] at h
  by_cases hc1 : objBeg < 1 ∨ objEnd < 1
  · rw [if_pos hc1] at h; simp at h
  · rw [if_neg hc1] at h
    by_cases hc2 : objBeg > objEnd
    · rw [if_pos hc2] at h; simp at h
    · rw [if_neg hc2] at h
      refine ⟨by omega, by omega, ?_⟩
      by_cases ht : st.currObj ≠ some obj
      · rw [if_pos ht] at h
        by_cases h1 : objBeg ≠ 1
        · rw [if_pos h1] at h; simp at h
        · rw [if_neg h1] at h
          by_cases h2 : obj ∈ st.seenObjs
          · rw [if_pos h2] at h; simp at h
          · rw [if_neg h2] at h
            by_cases h3 : ¬ (st.isFirst = true) ∧ is_covered st.currIntervals = false
            · rw [if_pos h3] at h; simp at h
            · rw [if_neg h3] at h
              have h3' : st.isFirst = false → is_covered st.currIntervals = true := by
                intro hf
                cases hcov : is_covered st.currIntervals with
                | false => exact absurd ⟨by simp [hf], hcov⟩ h3
                | true => rfl
              obtain ⟨hpid, hst, bcs, compLen, hcs, hlen, hbr⟩ := recordRest_ok h
              refine ⟨_, bcs, compLen, resetState st obj, hcs, hlen, hst, ?_, hbr,
                Or.inr ⟨ht, by omega, h2, h3', rfl, rfl⟩⟩
              rw [hpid]
      · rw [if_neg ht] at h
        obtain ⟨hpid, hst, bcs, compLen, hcs, hlen, hbr⟩ := recordRest_ok h
        exact ⟨[], bcs, compLen, st, by simpa using hcs, hlen, hst, hpid, hbr,
          Or.inl ⟨not_not.mp ht, rfl, rfl⟩⟩

lemma processBody_ok {fetch rc : String → String} {n : ℕ} {st : AgpSt}
    {fields : List String} {cs : List Chunk} {st' : AgpSt}
    (h : processBody fetch rc n st fields = (cs, st', none)) :
    ∃ f0 f1 f2 f3 f4 f5 f6 f7 f8 objBeg objEnd pid,
      fields = [f0, f1, f2, f3, f4, f5, f6, f7, f8] ∧
      parseInt f1 = some objBeg ∧ parseInt f2 = some objEnd ∧
      parseInt f3 = some pid ∧
      processRecord fetch rc n st f0 objBeg objEnd pid f4 f5 f6 f7 f8
        = (cs, st', none) := by
  rw [processBody] at h
  by_cases h1 : fields.length ≠ 9
  · rw [if_pos h1] at h; simp at h
  · rw [if_neg h1] at h
    obtain ⟨f0, f1, f2, f3, f4, f5, f6, f7, f8, rfl⟩ :=
      exists_nine fields (by omega)
    by_cases h2 : ¬ (([f0, f1, f2, f3, f4, f5, f6, f7, f8] : List String).all
        (fun f => f ≠ ""))
    · rw [if_pos h2] at h; simp at h
    · rw [if_neg h2] at h
      simp only [List.getD_cons_succ, List.getD_cons_zero] at h
      cases hp1 : parseInt f1 with
      | none => rw [hp1] at h; dsimp only at h; simp at h
      | some objBeg =>
        cases hp2 : parseInt f2 with
        | none => rw [hp1, hp2] at h; dsimp only at h; simp at h
        | some objEnd =>
          cases hp3 : parseInt f3 with
          | none => rw [hp1, hp2, hp3] at h; dsimp only at h; simp at h
          | some pid =>
            rw [hp1, hp2, hp3] at h; dsimp only at h
            exact ⟨f0, f1, f2, f3, f4, f5, f6, f7, f8, objBeg, objEnd, pid,
              rfl, hp1, hp2, hp3, h⟩

lemma processLine_ok {fetch rc : String → String} {n : ℕ} {st : AgpSt}
    {line : String} {cs : List Chunk} {st' : AgpSt}
    (h : processLine fetch rc n st line = (cs, st', none)) :
    (pyStartsHash line = true ∧ cs = [] ∧ st' = st) ∨
    (pyStartsHash line = false ∧
      processBody fetch rc n { st with pastComments := true }
        (pySplitTab (pyRstrip line)) = (cs, st', none)) := by
  rw [processLine] at h
  by_cases hc : pyStartsHash line
  · rw [if_pos hc] at h
    by_cases hp : st.pastComments
    · rw [if_pos hp] at h; simp at h
    · rw [if_neg hp] at h
      simp only [Prod.mk.injEq] at h
      exact Or.inl ⟨hc, h.1.symm, h.2.1.symm⟩
  · rw [if_neg hc] at h
    exact Or.inr ⟨by simpa using hc, h⟩

lemma processLine_sem {fetch rc : String → String} {n : ℕ} {st : AgpSt}
    {line : String} {cs : List Chunk} {st' : AgpSt}
    (hrc : ∀ t, (rc t).length = t.length)
    (hfl : fetchLenOk fetch line = true)
    (h : processLine fetch rc n st line = (cs, st', none)) :
    (pyStartsHash line = true ∧ cs = [] ∧ st' = st) ∨
    (∃ obj objBeg objEnd s,
      1 ≤ objBeg ∧ objBeg ≤ objEnd ∧
      (s.length : ℤ) = objEnd - (objBeg - 1) ∧
      st'.currObj = some obj ∧
      ((st.currObj = some obj ∧ st'.isFirst = st.isFirst ∧
        st'.seenObjs = st.seenObjs ∧
        st'.currIntervals = st.currIntervals ++ [(objBeg - 1, objEnd)] ∧
        cs = [Chunk.seq s])
        ∨
       (st.currObj ≠ some obj ∧ objBeg = 1 ∧ st'.isFirst = false ∧
        (st.isFirst = false → is_covered st.currIntervals = true) ∧
        st'.currIntervals = [(0, objEnd)] ∧
        cs = (if st.isFirst then [] else [Chunk.sep])
          ++ [Chunk.header obj, Chunk.seq s]))) := by
  rcases processLine_ok h with hcase | ⟨hns, hb⟩
  · exact Or.inl hcase
  · obtain ⟨f0, f1, f2, f3, f4, f5, f6, f7, f8, objBeg, objEnd, pid,
      heq, hp1, hp2, hp3, hrec⟩ := processBody_ok hb
    obtain ⟨hge1, hle, hdr, bcs, compLen, st₁, hcs, hclen, hst', hpid, hbr, hcases⟩ :=
      processRecord_ok hrec
    have hseq : ∃ s : String, bcs = [Chunk.seq s] ∧ (s.length : ℤ) = compLen := by
      rcases hbr with ⟨hNU, hcb⟩ | ⟨hNU, hgb⟩
      · obtain ⟨s, cb, ce, hpcb, hpce, hc1, hc2, hc3⟩ := compBranch_ok hrc hcb
        refine ⟨s, hc2, ?_⟩
        rw [fetchLenOk, if_neg (by simp [hns]), heq] at hfl
        dsimp only at hfl
        rw [if_neg (by tauto), hpcb, hpce] at hfl
        dsimp only at hfl
        have hfl' := beq_iff_eq.mp hfl
        have hcast : (s.length : ℤ) = ((fetch f5).length : ℤ) := by
          exact_mod_cast hc3
        omega
      · obtain ⟨hge, s, hbcs, hslen⟩ := gapBranch_ok hgb
        exact ⟨s, hbcs, hslen⟩
    obtain ⟨s, hbcs, hslen⟩ := hseq
    refine Or.inr ⟨f0, objBeg, objEnd, s, hge1, hle, by omega, ?_, ?_⟩
    · rw [hst']
      rcases hcases with ⟨hsome, rfl, -⟩ | ⟨-, -, -, -, hreset, -⟩
      · simpa [bumpState] using hsome
      · rw [hreset]; simp [bumpState, resetState]
    · rcases hcases with ⟨hsome, hdef, hhdr⟩ | ⟨hne2, hbeg1, hmem, hcov, hreset, hhdr⟩
      · subst hdef
        refine Or.inl ⟨hsome, by rw [hst']; simp [bumpState],
          by rw [hst']; simp [bumpState],
          by rw [hst']; simp [bumpState],
          by rw [hcs, hhdr, hbcs]; simp⟩
      · refine Or.inr ⟨hne2, hbeg1, ?_, ?_, ?_, ?_⟩
        · rw [hst', hreset]; simp [bumpState, resetState]
        · intro hf
          exact hcov hf
        · rw [hst', hreset, hbeg1]; simp [bumpState, resetState]
        · rw [hcs, hhdr, hbcs]; simp

lemma runLines_cons_inv {fetch rc : String → String} {l : String}
    {ls : List String} {n : ℕ} {st : AgpSt} {cs : List Chunk} {st' : AgpSt}
    (h : runLines fetch rc (l :: ls) n st = (cs, st', none)) :
    ∃ cs₁ st₁ cs₂, processLine fetch rc n st l = (cs₁, st₁, none) ∧
      runLines fetch rc ls (n + 1) st₁ = (cs₂, st', none) ∧
      cs = cs₁ ++ cs₂ := by
  rw [runLines] at h
  cases hp : processLine fetch rc n st l with
  | mk cs₁ rest =>
    cases rest with
    | mk st₁ e₁ =>
      rw [hp] at h
      cases e₁ with
      | some e => dsimp only at h; simp at h
      | none =>
        dsimp only at h
        cases hr : runLines fetch rc ls (n + 1) st₁ with
        | mk cs₂ rest₂ =>
          cases rest₂ with
          | mk st₂ e₂ =>
            rw [hr] at h
            dsimp only at h
            simp only [Prod.mk.injEq] at h
            obtain ⟨h1, h2, h3⟩ := h
            subst h2; subst h3
            exact ⟨cs₁, st₁, cs₂, rfl, hr, h1.symm⟩

lemma histOf_cons_ok {fetch rc : String → String} {l : String}
    (ls : List String) {n : ℕ} {st : AgpSt} {cs₁ : List Chunk} {st₁ : AgpSt}
    (hp : processLine fetch rc n st l = (cs₁, st₁, none)) :
    histOf fetch rc (l :: ls) n st
      = (match st.currObj with
         | some o => if st₁.currObj = some o then [] else [(o, st.currIntervals)]
         | none => []) ++ histOf fetch rc ls (n + 1) st₁ := by
  rw [histOf, hp]

lemma WF_initSt : WF initSt := by
  refine ⟨by simp [initSt], by simp [initSt], by simp [initSt], ?_, ?_⟩
  · intro p hp; simp [initSt] at hp
  · intro p hp; simp [initSt] at hp

lemma sumLens_append_single (I : List (ℤ × ℤ)) (a b : ℤ) :
    sumLens (I ++ [(a, b)]) = sumLens I + (b - a) := by
  simp [sumLens]

lemma sumLens_single (a b : ℤ) : sumLens [(a, b)] = b - a := by
  simp [sumLens]

lemma splitBlocks_sep (r : List Chunk) :
    splitBlocks (Chunk.sep :: r) = splitBlocks r := rfl

lemma splitBlocks_nl (r : List Chunk) :
    splitBlocks (Chunk.nl :: r) = splitBlocks r := rfl

lemma splitBlocks_seq (s : String) (r : List Chunk) :
    splitBlocks (Chunk.seq s :: r)
      = ((splitBlocks r).1 + s.length, (splitBlocks r).2) := rfl

lemma splitBlocks_header (o : String) (r : List Chunk) :
    splitBlocks (Chunk.header o :: r)
      = (0, (o, (splitBlocks r).1) :: (splitBlocks r).2) := rfl

lemma WF_step_nontrans {st st₁ : AgpSt} {objBeg objEnd : ℤ} {obj : String}
    (hwf : WF st) (hsome : st.currObj = some obj)
    (hif : st₁.isFirst = st.isFirst) (hco : st₁.currObj = some obj)
    (hints : st₁.currIntervals = st.currIntervals ++ [(objBeg - 1, objEnd)])
    (h1 : 1 ≤ objBeg) (h2 : objBeg ≤ objEnd) : WF st₁ := by
  obtain ⟨hw1, hw2, hw3, hw4, hw5⟩ := hwf
  have hisf : st.isFirst = false := by
    cases hx : st.isFirst with
    | true => rw [hw1.mp hx] at hsome; cases hsome
    | false => rfl
  have hne : st.currIntervals ≠ [] := hw3 (by rw [hsome]; simp)
  refine ⟨by rw [hif, hisf, hco]; simp, by rw [hco]; simp,
    fun _ => by rw [hints]; simp, ?_, ?_⟩
  · intro p hp
    rw [hints] at hp
    rcases List.mem_append.mp hp with hp | hp
    · exact hw4 p hp
    · simp at hp
      subst hp
      constructor <;> omega
  · intro p hp
    rw [hints] at hp
    cases hI : st.currIntervals with
    | nil => exact absurd hI hne
    | cons q t =>
      rw [hI] at hp
      simp at hp
      exact hw5 p (by rw [hI]; simpa using hp)

lemma WF_step_trans {st₁ : AgpSt} {objEnd : ℤ} {obj : String}
    (hco : st₁.currObj = some obj) (hif : st₁.isFirst = false)
    (hints : st₁.currIntervals = [(0, objEnd)]) (h2 : 1 ≤ objEnd) :
    WF st₁ := by
  refine ⟨by rw [hif, hco]; simp, by rw [hco]; simp,
    fun _ => by rw [hints]; simp, ?_, ?_⟩
  · intro p hp
    rw [hints] at hp
    simp at hp
    subst hp
    constructor <;> omega
  · intro p hp
    rw [hints] at hp
    simp at hp
    rw [← hp]

lemma runLines_master {fetch rc : String → String}
    (hrc : ∀ t, (rc t).length = t.length) (ls : List String) :
    ∀ (n : ℕ) (st : AgpSt) (cs : List Chunk) (st' : AgpSt),
    runLines fetch rc ls n st = (cs, st', none) →
    (∀ l ∈ ls, fetchLenOk fetch l = true) →
    WF st →
    WF st' ∧
    (∀ oI ∈ histOf fetch rc ls n st,
        is_covered oI.2 = true ∧ WFints oI.2 ∧ oI.2 ≠ []) ∧
    ((∃ o₀, st.currObj = some o₀ ∧ histOf fetch rc ls n st = [] ∧
        st'.currObj = some o₀ ∧ (splitBlocks cs).2 = [] ∧
        ((splitBlocks cs).1 : ℤ)
          = sumLens st'.currIntervals - sumLens st.currIntervals) ∨
     (∃ o₀ I₁ H' oL, st.currObj = some o₀ ∧
        histOf fetch rc ls n st = (o₀, I₁) :: H' ∧
        ((splitBlocks cs).1 : ℤ) = sumLens I₁ - sumLens st.currIntervals ∧
        st'.currObj = some oL ∧
        (splitBlocks cs).2 = (H' ++ [(oL, st'.currIntervals)]).map
          (fun p => (p.1, (sumLens p.2).toNat))) ∨
     (st.currObj = none ∧ (splitBlocks cs).1 = 0 ∧ st'.currObj = none ∧
        histOf fetch rc ls n st = [] ∧ (splitBlocks cs).2 = [] ∧ st' = st) ∨
     (∃ oL, st.currObj = none ∧ (splitBlocks cs).1 = 0 ∧
        st'.currObj = some oL ∧
        (splitBlocks cs).2
          = (histOf fetch rc ls n st ++ [(oL, st'.currIntervals)]).map
            (fun p => (p.1, (sumLens p.2).toNat)))) := by
  induction ls with
  | nil =>
    intro n st cs st' h hfl hwf
    rw [runLines] at h
    simp only [Prod.mk.injEq] at h
    obtain ⟨h1, h2, -⟩ := h
    subst h2
    have hcs : cs = [] := h1.symm
    subst hcs
    refine ⟨hwf, by intro oI hoI; simp [histOf] at hoI, ?_⟩
    cases hobj : st.currObj with
    | some o₀ =>
      refine Or.inl ⟨o₀, rfl, by simp [histOf], rfl, rfl, ?_⟩
      have hz : (splitBlocks ([] : List Chunk)).1 = 0 := rfl
      rw [hz]
      omega
    | none =>
      exact Or.inr (Or.inr (Or.inl ⟨rfl, rfl, rfl, by simp [histOf],
        rfl, rfl⟩))
  | cons l ls IH =>
    intro n st cs st' h hfl hwf
    obtain ⟨cs₁, st₁, cs₂, hp, hr, rfl⟩ := runLines_cons_inv h
    have hfll : fetchLenOk fetch l = true := hfl l (List.mem_cons_self _ _)
    have hfls : ∀ x ∈ ls, fetchLenOk fetch x = true :=
      fun x hx => hfl x (List.mem_cons_of_mem _ hx)
    have hhist := histOf_cons_ok ls hp
    rcases processLine_sem hrc hfll hp with ⟨hcm, rfl, rfl⟩ |
      ⟨obj, objBeg, objEnd, s, hb1, hb2, hslen, hco1, hcases⟩
    · -- comment line: no chunks, state unchanged
      obtain ⟨hwf', hhwf, hdisj⟩ := IH (n + 1) st₁ cs₂ st' hr hfls hwf
      have hent : histOf fetch rc (l :: ls) n st₁
          = histOf fetch rc ls (n + 1) st₁ := by
        rw [hhist]
        cases ho : st₁.currObj with
        | none => simp
        | some o => simp
      rw [List.nil_append, hent]
      exact ⟨hwf', hhwf, hdisj⟩
    · rcases hcases with ⟨hsome, hif, hseen, hints, rfl⟩ |
        ⟨hneq, hbeg1, hif, hcov, hints, rfl⟩
      · -- body line continuing the same object
        have hwf₁ : WF st₁ := WF_step_nontrans hwf hsome hif hco1 hints hb1 hb2
        obtain ⟨hwf', hhwf, hdisj⟩ := IH (n + 1) st₁ cs₂ st' hr hfls hwf₁
        have hent : histOf fetch rc (l :: ls) n st
            = histOf fetch rc ls (n + 1) st₁ := by
          rw [hhist, hsome]
          simp [hco1]
        have hsum : sumLens st₁.currIntervals
            = sumLens st.currIntervals + (objEnd - (objBeg - 1)) := by
          rw [hints, sumLens_append_single]
        refine ⟨hwf', by rw [hent]; exact hhwf, ?_⟩
        rw [hent, List.singleton_append, splitBlocks_seq]
        rcases hdisj with ⟨o₀, ho₀, hh, hcoL, hB, hF⟩ |
          ⟨o₀, I₁, H', oL, ho₀, hh, hF, hcoL, hB⟩ |
          ⟨hnone, -, -, -, -, -⟩ | ⟨oL, hnone, -, -, -⟩
        · rw [hco1] at ho₀
          injection ho₀ with heq
          subst heq
          refine Or.inl ⟨obj, hsome, hh, hcoL, hB, ?_⟩
          push_cast
          omega
        · rw [hco1] at ho₀
          injection ho₀ with heq
          subst heq
          refine Or.inr (Or.inl ⟨obj, I₁, H', oL, hsome, hh, ?_, hcoL, hB⟩)
          push_cast
          omega
        · simp [hco1] at hnone
        · simp [hco1] at hnone
      · -- body line starting a new object
        have hwf₁ : WF st₁ := WF_step_trans hco1 hif hints (by omega)
        obtain ⟨hwf', hhwf, hdisj⟩ := IH (n + 1) st₁ cs₂ st' hr hfls hwf₁
        have hsum₁ : sumLens st₁.currIntervals = objEnd := by
          rw [hints, sumLens_single]
          ring
        have hsb : splitBlocks (((if st.isFirst then [] else [Chunk.sep])
              ++ [Chunk.header obj, Chunk.seq s]) ++ cs₂)
            = (0, (obj, (splitBlocks cs₂).1 + s.length)
                :: (splitBlocks cs₂).2) := by
          cases hIF : st.isFirst with
          | true => simp [hIF, splitBlocks_header, splitBlocks_seq]
          | false =>
            simp [hIF, splitBlocks_sep, splitBlocks_header, splitBlocks_seq]
        cases hobj : st.currObj with
        | none =>
          have hent : histOf fetch rc (l :: ls) n st
              = histOf fetch rc ls (n + 1) st₁ := by
            rw [hhist, hobj]
            simp
          refine ⟨hwf', by rw [hent]; exact hhwf, ?_⟩
          rcases hdisj with ⟨o₀, ho₀, hh, hcoL, hB, hF⟩ |
            ⟨o₀, I₁, H', oL, ho₀, hh, hF, hcoL, hB⟩ |
            ⟨hnone, -, -, -, -, -⟩ | ⟨oL, hnone, -, -, -⟩
          · rw [hco1] at ho₀
            injection ho₀ with heq
            subst heq
            refine Or.inr (Or.inr (Or.inr ⟨obj, rfl, by rw [hsb], hcoL, ?_⟩))
            rw [hsb, hent, hh]
            have hlen : (splitBlocks cs₂).1 + s.length
                = (sumLens st'.currIntervals).toNat := by omega
            simp [hB, hlen]
          · rw [hco1] at ho₀
            injection ho₀ with heq
            subst heq
            refine Or.inr (Or.inr (Or.inr ⟨oL, rfl, by rw [hsb], hcoL, ?_⟩))
            rw [hsb, hent, hh]
            have hlen : (splitBlocks cs₂).1 + s.length
                = (sumLens I₁).toNat := by omega
            simp [hB, hlen]
          · simp [hco1] at hnone
          · simp [hco1] at hnone
        | some o₀ =>
          have hisf : st.isFirst = false := by
            cases hx : st.isFirst with
            | true => rw [hwf.1.mp hx] at hobj; cases hobj
            | false => rfl
          have hcov' : is_covered st.currIntervals = true := hcov hisf
          have hneI : st.currIntervals ≠ [] := hwf.2.2.1 (by rw [hobj]; simp)
          have hwfI : WFints st.currIntervals := hwf.2.2.2
          have hentry : histOf fetch rc (l :: ls) n st
              = (o₀, st.currIntervals) :: histOf fetch rc ls (n + 1) st₁ := by
            rw [hhist, hobj]
            have hx : ¬ (st₁.currObj = some o₀) := by
              rw [hco1]
              intro hx
              injection hx with hx
              exact hneq (by rw [hobj, hx])
            simp [hx]
          refine ⟨hwf', ?_, ?_⟩
          · rw [hentry]
            intro oI hoI
            rcases List.mem_cons.mp hoI with rfl | hoI
            · exact ⟨hcov', hwfI, hneI⟩
            · exact hhwf oI hoI
          · rcases hdisj with ⟨o₁', ho₁', hh, hcoL, hB, hF⟩ |
              ⟨o₁', I₁, H', oL, ho₁', hh, hF, hcoL, hB⟩ |
              ⟨hnone, -, -, -, -, -⟩ | ⟨oL', hnone, -, -, -⟩
            · rw [hco1] at ho₁'
              injection ho₁' with heq
              subst heq
              refine Or.inr (Or.inl ⟨o₀, st.currIntervals, [], obj, rfl,
                by rw [hentry, hh], by rw [hsb]; simp, hcoL, ?_⟩)
              rw [hsb]
              have hlen : (splitBlocks cs₂).1 + s.length
                  = (sumLens st'.currIntervals).toNat := by omega
              simp [hB, hlen]
            · rw [hco1] at ho₁'
              injection ho₁' with heq
              subst heq
              refine Or.inr (Or.inl ⟨o₀, st.currIntervals, (obj, I₁) :: H',
                oL, rfl, by rw [hentry, hh], by rw [hsb]; simp, hcoL, ?_⟩)
              rw [hsb]
              have hlen : (splitBlocks cs₂).1 + s.length
                  = (sumLens I₁).toNat := by omega
              simp [hB, hlen]
            · simp [hco1] at hnone
            · simp [hco1] at hnone

lemma runAgp_inv {fetch rc : String → String} {lines : List String}
    {cs : List Chunk} {st' : AgpSt}
    (h : runAgp fetch rc lines = (cs, st', none)) :
    ∃ cs₀, runLines fetch rc lines 1 initSt = (cs₀, st', none) ∧
      cs = cs₀ ++ [Chunk.nl] := by
  rw [runAgp] at h
  cases hr : runLines fetch rc lines 1 initSt with
  | mk cs₀ rest =>
    cases rest with
    | mk st₀ e₀ =>
      rw [hr] at h
      cases e₀ with
      | none =>
        dsimp only at h
        simp only [Prod.mk.injEq] at h
        obtain ⟨h1, h2, -⟩ := h
        subst h2
        exact ⟨cs₀, rfl, h1.symm⟩
      | some e => dsimp only at h; simp at h

lemma splitBlocks_append_nl (xs : List Chunk) :
    splitBlocks (xs ++ [Chunk.nl]) = splitBlocks xs := by
  induction xs with
  | nil => rfl
  | cons c t ih =>
    cases c with
    | sep => rw [List.cons_append, splitBlocks_sep, splitBlocks_sep, ih]
    | nl => rw [List.cons_append, splitBlocks_nl, splitBlocks_nl, ih]
    | seq s => rw [List.cons_append, splitBlocks_seq, splitBlocks_seq, ih]
    | header o =>
      rw [List.cons_append, splitBlocks_header, splitBlocks_header, ih]

lemma sumLens_eq_maxEnd_of_WFints {I : List (ℤ × ℤ)}
    (hcov : is_covered I = true) (hwfI : WFints I) (hne : I ≠ []) :
    sumLens I = maxEnd I := by
  obtain ⟨q, t, rfl⟩ := List.exists_cons_of_ne_nil hne
  have hq : q.1 = 0 := hwfI.2 q rfl
  have hqq : q = ((0 : ℤ), q.2) := by
    obtain ⟨q1, q2⟩ := q
    simp only at hq
    rw [hq]
  have hmem : ((0 : ℤ), q.2) ∈ q :: t := hqq ▸ List.mem_cons_self _ _
  exact sumLens_eq_maxEnd_of_covered hwfI.1 hmem hcov

/-- Claim C1 (amended).  As stated the claim fails because the final
object is never coverage-checked (see c1_counterexample); it holds once
the final object's accumulated intervals are additionally required to
pass the coverage check.  Under that extra hypothesis, for every AGP
input the program accepts without error, given that the collaborator
returns for each component_id a sequence whose length the record declares
(fetchLenOk) and that reverse complement preserves length: no sequence
text precedes the first header, and the per-object sequence-text lengths
of the output are exactly, object by object in order, the object's final
object_end — formalized as maxEnd of the object's accumulated intervals,
the largest object_end among its records. -/
theorem c1_amended_total_length {fetch rc : String → String}
    {lines : List String} {cs : List Chunk} {st' : AgpSt}
    (hrun : runAgp fetch rc lines = (cs, st', none))
    (hrc : ∀ t, (rc t).length = t.length)
    (hfl : ∀ l ∈ lines, fetchLenOk fetch l = true)
    (hcov : is_covered st'.currIntervals = true) :
    (splitBlocks cs).1 = 0 ∧
    (splitBlocks cs).2
      = (fullHist fetch rc lines st').map
          (fun p => (p.1, (maxEnd p.2).toNat)) := by
  obtain ⟨cs₀, hr, rfl⟩ := runAgp_inv hrun
  rw [splitBlocks_append_nl]
  obtain ⟨hwf', hhwf, hdisj⟩ :=
    runLines_master hrc lines 1 initSt cs₀ st' hr hfl WF_initSt
  rcases hdisj with ⟨o₀, ho₀, -⟩ | ⟨o₀, I₁, H', oL, ho₀, -⟩ |
    ⟨-, hF, hnone, hh, hB, -⟩ | ⟨oL, -, hF, hsome, hB⟩
  · exact absurd ho₀ (by simp [initSt])
  · exact absurd ho₀ (by simp [initSt])
  · refine ⟨hF, ?_⟩
    rw [hB, fullHist, hh, hnone]
    rfl
  · refine ⟨hF, ?_⟩
    rw [hB, fullHist, hsome]
    dsimp only
    apply List.map_congr_left
    intro p hp
    rcases List.mem_append.mp hp with hp | hp
    · obtain ⟨hc, hw, hn⟩ := hhwf p hp
      rw [sumLens_eq_maxEnd_of_WFints hc hw hn]
    · simp only [List.mem_singleton] at hp
      subst hp
      have hne : st'.currIntervals ≠ [] := hwf'.2.2.1 (by rw [hsome]; simp)
      rw [sumLens_eq_maxEnd_of_WFints hcov hwf'.2.2.2 hne]

/-- Claim C1, counterexample to the claim as stated: this two-line input
is accepted without error and its collaborator returns the declared
lengths (fetchLenOk holds for each line), yet the single object's emitted
sequence text has length 10 while its final object_end is 15 — because
the final object's coverage is never checked, the gap [10,20) goes
unnoticed. -/
theorem c1_counterexample :
    (runAgp (fun _ => "GGGGG") (fun t => t)
        ["t\t1\t5\t1\tW\tc\t1\t5\t+", "t\t11\t15\t2\tW\tc\t1\t5\t+"]).2.2
      = none
    ∧ (["t\t1\t5\t1\tW\tc\t1\t5\t+", "t\t11\t15\t2\tW\tc\t1\t5\t+"].all
        (fetchLenOk (fun _ => "GGGGG"))) = true
    ∧ (splitBlocks (runAgp (fun _ => "GGGGG") (fun t => t)
        ["t\t1\t5\t1\tW\tc\t1\t5\t+", "t\t11\t15\t2\tW\tc\t1\t5\t+"]).1).2
      = [("t", 10)]
    ∧ maxEnd ((runAgp (fun _ => "GGGGG") (fun t => t)
        ["t\t1\t5\t1\tW\tc\t1\t5\t+", "t\t11\t15\t2\tW\tc\t1\t5\t+"]).2.1).currIntervals
      = 15
    ∧ (10 : ℕ) ≠ 15 :=
  ⟨by decide, by decide, by decide, by decide, by decide⟩

/-- Witness for c1_amended_total_length at a concrete two-object input:
object o1 is one component of length 3, object o2 one gap of length 2. -/
theorem c1_amended_total_length_w :
    (splitBlocks (runAgp (fun _ => "AAA") (fun t => t)
        ["o1\t1\t3\t1\tW\tc\t1\t3\t+", "o2\t1\t2\t1\tN\t2\tscaffold\tyes\tna"]).1).2
      = [("o1", 3), ("o2", 2)] := by
  have h := @c1_amended_total_length (fun _ => "AAA") (fun t => t)
    ["o1\t1\t3\t1\tW\tc\t1\t3\t+", "o2\t1\t2\t1\tN\t2\tscaffold\tyes\tna"]
    ((runAgp (fun _ => "AAA") (fun t => t)
        ["o1\t1\t3\t1\tW\tc\t1\t3\t+", "o2\t1\t2\t1\tN\t2\tscaffold\tyes\tna"]).1)
    ((runAgp (fun _ => "AAA") (fun t => t)
        ["o1\t1\t3\t1\tW\tc\t1\t3\t+", "o2\t1\t2\t1\tN\t2\tscaffold\tyes\tna"]).2.1)
    (by decide) (fun t => rfl) (by decide) (by decide)
  rw [h.2]
  decide

/-- Claim C2, counterexample to the claim as stated: this input's last
(and only) object leaves the positions [10,20) uncovered, yet the run is
accepted with no error — the end-of-input coverage check the claim
describes does not exist. -/
theorem c2_counterexample :
    (runAgp (fun _ => "AAAAAAAAAA") (fun t => t)
        ["s\t1\t10\t1\tW\tc\t1\t10\t+", "s\t21\t30\t2\tW\tc\t1\t10\t+"]).2.2
      = none
    ∧ is_covered ((runAgp (fun _ => "AAAAAAAAAA") (fun t => t)
        ["s\t1\t10\t1\tW\tc\t1\t10\t+", "s\t21\t30\t2\tW\tc\t1\t10\t+"]).2.1).currIntervals
      = false :=
  ⟨by decide, by decide⟩

/-- Claim C2 (amended): after the last input line has been processed, the
program performs no coverage check at all on the final object's
accumulated intervals — end-of-input only appends the trailing newline to
whatever the loop produced, whatever those intervals are; an input whose
last object's intervals leave a gap or overlap is accepted rather than
rejected. -/
theorem c2_amended_no_final_check {fetch rc : String → String}
    {lines : List String} {cs : List Chunk} {st : AgpSt}
    (h : runLines fetch rc lines 1 initSt = (cs, st, none)) :
    runAgp fetch rc lines = (cs ++ [Chunk.nl], st, none) := by
  rw [runAgp, h]

/-- Witness for c2_amended_no_final_check on the uncovered input of the
counterexample. -/
theorem c2_amended_no_final_check_w :
    runAgp (fun _ => "AAAAAAAAAA") (fun t => t)
        ["s\t1\t10\t1\tW\tc\t1\t10\t+", "s\t21\t30\t2\tW\tc\t1\t10\t+"]
      = ((runLines (fun _ => "AAAAAAAAAA") (fun t => t)
            ["s\t1\t10\t1\tW\tc\t1\t10\t+", "s\t21\t30\t2\tW\tc\t1\t10\t+"]
            1 initSt).1 ++ [Chunk.nl],
         (runLines (fun _ => "AAAAAAAAAA") (fun t => t)
            ["s\t1\t10\t1\tW\tc\t1\t10\t+", "s\t21\t30\t2\tW\tc\t1\t10\t+"]
            1 initSt).2.1, none) :=
  c2_amended_no_final_check (by decide)

lemma chain_fst_pairwise_lt : ∀ (t : List (ℤ × ℤ)),
    (∀ p ∈ t, p.1 < p.2) →
    List.Chain' (fun a b => a.2 = b.1) t →
    List.Pairwise (fun a b : ℤ × ℤ => a.1 < b.1) t
  | [], _, _ => List.Pairwise.nil
  | [a], _, _ => by simp
  | a :: b :: r, hwf, hch => by
    have hadj : a.2 = b.1 := (List.chain'_cons.mp hch).1
    have ih := chain_fst_pairwise_lt (b :: r)
      (fun p hp => hwf p (List.mem_cons_of_mem _ hp))
      (List.chain'_cons.mp hch).2
    have hab : a.1 < b.1 := by
      have := hwf a (by simp)
      omega
    refine List.pairwise_cons.mpr ⟨?_, ih⟩
    intro c hc
    rcases List.mem_cons.mp hc with rfl | hc
    · exact hab
    · have := (List.pairwise_cons.mp ih).1 c hc
      omega

lemma pairwise_lt_of_sorted_ne {t : List (ℤ × ℤ)}
    (hs : List.Sorted (fun a b : ℤ × ℤ => a.1 ≤ b.1) t)
    (hn : List.Pairwise (fun a b : ℤ × ℤ => a.1 ≠ b.1) t) :
    List.Pairwise (fun a b : ℤ × ℤ => a.1 < b.1) t := by
  induction t with
  | nil => exact List.Pairwise.nil
  | cons a t ih =>
    rw [List.pairwise_cons] at hn ⊢
    rw [List.sorted_cons] at hs
    exact ⟨fun b hb => lt_of_le_of_ne (hs.1 b hb) (hn.1 b hb),
      ih hs.2 hn.2⟩

lemma eq_of_perm_fst_lt : ∀ (t u : List (ℤ × ℤ)), t.Perm u →
    List.Pairwise (fun a b : ℤ × ℤ => a.1 < b.1) t →
    List.Pairwise (fun a b : ℤ × ℤ => a.1 < b.1) u → t = u
  | [], u, hperm, _, _ => hperm.nil_eq
  | a :: t', u, hperm, hpt, hpu => by
    cases u with
    | nil => exact absurd hperm.symm.nil_eq (by simp)
    | cons b u' =>
      have hab : a = b := by
        by_contra hne
        have ha : a ∈ b :: u' := hperm.mem_iff.mp (by simp)
        have hb : b ∈ a :: t' := hperm.mem_iff.mpr (by simp)
        have ha' : a ∈ u' := by
          rcases List.mem_cons.mp ha with h | h
          · exact absurd h hne
          · exact h
        have hb' : b ∈ t' := by
          rcases List.mem_cons.mp hb with h | h
          · exact absurd h.symm hne
          · exact h
        have h1 : b.1 < a.1 := (List.pairwise_cons.mp hpu).1 a ha'
        have h2 : a.1 < b.1 := (List.pairwise_cons.mp hpt).1 b hb'
        omega
      subst hab
      rw [eq_of_perm_fst_lt t' u' hperm.cons_inv
        (List.pairwise_cons.mp hpt).2 (List.pairwise_cons.mp hpu).2]

/-- Claim C3: the coverage check is_covered succeeds iff, after sorting
the accumulated intervals by start coordinate, the end of each interval
equals the start of the next for every adjacent pair — first conjunct:
the list the code scans (Python's sorted on the interval tuples, the
lexicographic sort) is a permutation of the input ordered by start
coordinate, and is_covered equals its adjacency scan; third conjunct:
for well-formed accumulated intervals the same equivalence holds for
ANY rearrangement of the intervals sorted by start coordinate, so the
result does not depend on which by-start sorting is taken.  Second
conjunct: when the intervals are well formed (nonempty, 0-based
nonnegative) and the object's first record starts at position 1 (first
interval (0, e)), the check succeeds iff the intervals exactly tile the
object extent: every position below the largest interval end (the object
length) is covered by exactly one interval, and every other position by
none. -/
theorem c3_coverage_check (s : List (ℤ × ℤ)) :
    ((List.insertionSort tup_le s).Perm s ∧
     List.Sorted (fun a b : ℤ × ℤ => a.1 ≤ b.1) (List.insertionSort tup_le s) ∧
     (is_covered s = true ↔
       List.Chain' (fun a b => a.2 = b.1) (List.insertionSort tup_le s))) ∧
    ((∀ p ∈ s, 0 ≤ p.1 ∧ p.1 < p.2) → ∀ e : ℤ, s.head? = some (0, e) →
      (is_covered s = true ↔
        ∀ x : ℤ, mult s x = if 0 ≤ x ∧ x < maxEnd s then 1 else 0)) ∧
    ((∀ p ∈ s, p.1 < p.2) →
      ∀ t, t.Perm s → List.Sorted (fun a b : ℤ × ℤ => a.1 ≤ b.1) t →
      (List.Chain' (fun a b => a.2 = b.1) t ↔ is_covered s = true)) := by
  refine ⟨⟨List.perm_insertionSort _ _, ?_, ?_⟩, ?_, ?_⟩
  · exact List.Pairwise.imp (fun h => by unfold tup_le at h; omega)
      (List.sorted_insertionSort tup_le s)
  · rw [is_covered]
    exact chainOk_iff_chain _
  · intro hwf e hhead
    have hmem : ((0 : ℤ), e) ∈ s := List.mem_of_mem_head? hhead
    exact is_covered_iff_mult hwf hmem
  · intro hwf t hperm hsort
    have hu_perm : (List.insertionSort tup_le s).Perm s :=
      List.perm_insertionSort _ _
    have hu_sort : List.Sorted (fun a b : ℤ × ℤ => a.1 ≤ b.1)
        (List.insertionSort tup_le s) :=
      List.Pairwise.imp (fun h => by unfold tup_le at h; omega)
        (List.sorted_insertionSort tup_le s)
    have hwf_t : ∀ p ∈ t, p.1 < p.2 := fun p hp => hwf p (hperm.mem_iff.mp hp)
    have hwf_u : ∀ p ∈ List.insertionSort tup_le s, p.1 < p.2 :=
      fun p hp => hwf p (hu_perm.mem_iff.mp hp)
    have htu : t.Perm (List.insertionSort tup_le s) := hperm.trans hu_perm.symm
    have hiff : is_covered s = true ↔
        List.Chain' (fun a b => a.2 = b.1) (List.insertionSort tup_le s) := by
      rw [is_covered]
      exact chainOk_iff_chain _
    constructor
    · intro hct
      have hst := chain_fst_pairwise_lt t hwf_t hct
      have hne_u : List.Pairwise (fun a b : ℤ × ℤ => a.1 ≠ b.1)
          (List.insertionSort tup_le s) :=
        (htu.pairwise_iff (fun h => Ne.symm h)).mp (hst.imp (fun h => ne_of_lt h))
      have hsu := pairwise_lt_of_sorted_ne hu_sort hne_u
      have heq := eq_of_perm_fst_lt t _ htu hst hsu
      exact hiff.mpr (heq ▸ hct)
    · intro hcov
      have hcu := hiff.mp hcov
      have hsu := chain_fst_pairwise_lt _ hwf_u hcu
      have hne_t : List.Pairwise (fun a b : ℤ × ℤ => a.1 ≠ b.1) t :=
        (htu.pairwise_iff (fun h => Ne.symm h)).mpr (hsu.imp (fun h => ne_of_lt h))
      have hst := pairwise_lt_of_sorted_ne hsort hne_t
      have heq := eq_of_perm_fst_lt t _ htu hst hsu
      rw [heq]
      exact hcu

/-- Witness for c3_coverage_check at the interval lists [(0,2),(2,5)]
(tiling) and [(2,5),(0,2)] (unsorted input, checked through its by-start
sorted rearrangement). -/
theorem c3_coverage_check_w :
    is_covered [((0 : ℤ), (2 : ℤ)), (2, 5)] = true ∧
    mult [((0 : ℤ), (2 : ℤ)), (2, 5)] 3 = 1 ∧
    is_covered [((2 : ℤ), (5 : ℤ)), (0, 2)] = true := by
  have h := (c3_coverage_check [((0 : ℤ), (2 : ℤ)), (2, 5)]).2.1
    (by decide) 2 rfl
  have h1 : is_covered [((0 : ℤ), (2 : ℤ)), (2, 5)] = true := by decide
  refine ⟨h1, ?_, ?_⟩
  · rw [h.mp h1 3]
    decide
  · exact ((c3_coverage_check [((2 : ℤ), (5 : ℤ)), (0, 2)]).2.2
      (by decide) [((0 : ℤ), (2 : ℤ)), (2, 5)] (by decide) (by decide)).mp
      (List.chain'_cons.mpr ⟨rfl, List.chain'_singleton _⟩)

lemma runLines_comments {fetch rc : String → String} :
    ∀ (ls : List String) (n : ℕ) (st : AgpSt),
    (∀ l ∈ ls, pyStartsHash l = true) → st.pastComments = false →
    runLines fetch rc ls n st = ([], st, none)
  | [], n, st, _, _ => by rw [runLines]
  | l :: ls, n, st, hall, hpc => by
    have hl : pyStartsHash l = true := hall l (List.mem_cons_self _ _)
    have hstep : processLine fetch rc n st l = ([], st, none) := by
      rw [processLine, if_pos hl, if_neg (by rw [hpc]; simp)]
    rw [runLines, hstep]
    dsimp only
    rw [runLines_comments ls (n + 1) st
      (fun x hx => hall x (List.mem_cons_of_mem _ hx)) hpc]
    rfl

/-- Claim C9: on an input with no body lines at all — the empty file, or
a file of only comment lines starting with the hash marker — the program
succeeds, emits no header and no sequence text, and its entire output is
exactly the one trailing newline character. -/
theorem c9_empty_input {fetch rc : String → String} {lines : List String}
    (hall : ∀ l ∈ lines, pyStartsHash l = true) :
    runAgp fetch rc lines = ([Chunk.nl], initSt, none) ∧
    render [Chunk.nl] = "\n" := by
  constructor
  · rw [runAgp, runLines_comments lines 1 initSt hall rfl]
    rfl
  · decide

/-- Witness for c9_empty_input on a two-comment-line input. -/
theorem c9_empty_input_w :
    runAgp (fun _ => "X") (fun t => t) ["# a comment", "#"]
      = ([Chunk.nl], initSt, none) :=
  (c9_empty_input (by decide)).1

lemma prevPid_count {fetch rc : String → String} :
    ∀ (ls : List String) (n : ℕ) (st : AgpSt) (cs : List Chunk) (st' : AgpSt),
    runLines fetch rc ls n st = (cs, st', none) →
    st.prevPid = (st.currIntervals.length : ℤ) →
    st'.prevPid = (st'.currIntervals.length : ℤ)
  | [], n, st, cs, st', h, hinv => by
    rw [runLines] at h
    simp only [Prod.mk.injEq] at h
    obtain ⟨-, h2, -⟩ := h
    rw [← h2]
    exact hinv
  | l :: ls, n, st, cs, st', h, hinv => by
    obtain ⟨cs₁, st₁, cs₂, hp, hr, rfl⟩ := runLines_cons_inv h
    have hinv₁ : st₁.prevPid = (st₁.currIntervals.length : ℤ) := by
      rcases processLine_ok hp with ⟨-, -, heq⟩ | ⟨-, hb⟩
      · rw [heq]; exact hinv
      · obtain ⟨f0, f1, f2, f3, f4, f5, f6, f7, f8, objBeg, objEnd, pid,
          -, -, -, -, hrec⟩ := processBody_ok hb
        obtain ⟨-, -, hdr, bcs, compLen, st₀, -, -, hst1, hpid, -, hcases⟩ :=
          processRecord_ok hrec
        rcases hcases with ⟨-, rfl, -⟩ | ⟨-, -, -, -, hreset, -⟩
        · rw [hst1]
          simp only [bumpState, List.length_append, List.length_singleton]
          simp only at hpid ⊢
          push_cast
          omega
        · rw [hst1, hreset]
          simp only [bumpState, resetState, List.nil_append,
            List.length_singleton]
          rw [hreset] at hpid
          simp only [resetState] at hpid
          omega
    exact prevPid_count ls (n + 1) st₁ cs₂ st' hr hinv₁

/-- Claim C4: the previous-part-number state starts at 0 when an object
block begins (the transition reset sets it to 0), any record whose part
number does not exceed the stored previous part number by exactly 1 fails
with "non-sequential part_numbers", an accepted record updates the stored
value to its own part number — so the first record of every object must
carry part number 1, a record continuing an object must carry the
previous part number plus 1, and along any accepted run the stored part
number always equals the number of records accumulated for the current
object, making the part numbers within a block exactly 1, 2, 3, ... -/
theorem c4_part_numbers :
    (∀ (st : AgpSt) (obj : String), (resetState st obj).prevPid = 0) ∧
    (∀ (fetch rc : String → String) (n : ℕ) (st : AgpSt) (hdr : List Chunk)
        (objBeg objEnd pid objLen : ℤ) (f4 f5 f6 f7 f8 : String),
      pid - st.prevPid ≠ 1 →
      recordRest fetch rc n st hdr objBeg objEnd pid objLen f4 f5 f6 f7 f8
        = (hdr, st, some (log_err n "non-sequential part_numbers"))) ∧
    (∀ (fetch rc : String → String) (n : ℕ) (st : AgpSt) (obj : String)
        (objBeg objEnd pid : ℤ) (f4 f5 f6 f7 f8 : String)
        (cs : List Chunk) (st' : AgpSt),
      processRecord fetch rc n st obj objBeg objEnd pid f4 f5 f6 f7 f8
        = (cs, st', none) →
      (st.currObj ≠ some obj → pid = 1) ∧
      (st.currObj = some obj → pid = st.prevPid + 1) ∧
      st'.prevPid = pid) ∧
    (∀ (fetch rc : String → String) (ls : List String) (n : ℕ) (st : AgpSt)
        (cs : List Chunk) (st' : AgpSt),
      runLines fetch rc ls n st = (cs, st', none) →
      st.prevPid = (st.currIntervals.length : ℤ) →
      st'.prevPid = (st'.currIntervals.length : ℤ)) := by
  refine ⟨fun st obj => rfl, ?_, ?_, ?_⟩
  · intro fetch rc n st hdr objBeg objEnd pid objLen f4 f5 f6 f7 f8 hne
    rw [recordRest, if_pos hne]
  · intro fetch rc n st obj objBeg objEnd pid f4 f5 f6 f7 f8 cs st' h
    obtain ⟨-, -, hdr, bcs, compLen, st₀, -, -, hst', hpid, -, hcases⟩ :=
      processRecord_ok h
    refine ⟨?_, ?_, ?_⟩
    · intro hne
      rcases hcases with ⟨hsome, -, -⟩ | ⟨-, -, -, -, hreset, -⟩
      · exact absurd hsome hne
      · rw [hreset] at hpid
        simpa [resetState] using hpid
    · intro hsome
      rcases hcases with ⟨-, rfl, -⟩ | ⟨hne, -, -⟩
      · exact hpid
      · exact absurd hsome hne
    · rw [hst']
      simp [bumpState]
  · intro fetch rc ls n st cs st' h hinv
    exact prevPid_count ls n st cs st' h hinv

/-- Witness for c4_part_numbers: the reset zeroes the previous part
number, a part-number skip on the very first record of an object is
fatal with the non-sequential message, an accepted first record stores
part number 1, and the stored part number of an accepted concrete run
equals its record count. -/
theorem c4_part_numbers_w :
    (resetState initSt "s").prevPid = 0 ∧
    recordRest (fun _ => "") (fun t => t) 1 initSt [] 1 5 2 5 "W" "c" "1" "5" "+"
      = ([], initSt, some (log_err 1 "non-sequential part_numbers")) ∧
    ((processRecord (fun _ => "AAAAA") (fun t => t) 1 initSt "s" 1 5 1
        "W" "c" "1" "5" "+").2.1).prevPid = 1 ∧
    ((runLines (fun _ => "AAAAA") (fun t => t)
        ["s\t1\t5\t1\tW\tc\t1\t5\t+", "s\t6\t10\t2\tW\tc\t1\t5\t+"]
        1 initSt).2.1).prevPid
      = (((runLines (fun _ => "AAAAA") (fun t => t)
        ["s\t1\t5\t1\tW\tc\t1\t5\t+", "s\t6\t10\t2\tW\tc\t1\t5\t+"]
        1 initSt).2.1).currIntervals.length : ℤ) := by
  refine ⟨c4_part_numbers.1 initSt "s",
    c4_part_numbers.2.1 (fun _ => "") (fun t => t) 1 initSt [] 1 5 2 5
      "W" "c" "1" "5" "+" (by decide), ?_, ?_⟩
  · exact (c4_part_numbers.2.2.1 (fun _ => "AAAAA") (fun t => t) 1 initSt
      "s" 1 5 1 "W" "c" "1" "5" "+"
      (processRecord (fun _ => "AAAAA") (fun t => t) 1 initSt "s" 1 5 1
        "W" "c" "1" "5" "+").1
      (processRecord (fun _ => "AAAAA") (fun t => t) 1 initSt "s" 1 5 1
        "W" "c" "1" "5" "+").2.1 (by decide)).2.2
  · exact c4_part_numbers.2.2.2 (fun _ => "AAAAA") (fun t => t)
      ["s\t1\t5\t1\tW\tc\t1\t5\t+", "s\t6\t10\t2\tW\tc\t1\t5\t+"] 1 initSt
      (runLines (fun _ => "AAAAA") (fun t => t)
        ["s\t1\t5\t1\tW\tc\t1\t5\t+", "s\t6\t10\t2\tW\tc\t1\t5\t+"]
        1 initSt).1
      (runLines (fun _ => "AAAAA") (fun t => t)
        ["s\t1\t5\t1\tW\tc\t1\t5\t+", "s\t6\t10\t2\tW\tc\t1\t5\t+"]
        1 initSt).2.1 (by decide) (by decide)

/-- Claim C5: a record that starts a new object block (well-formed start
coordinates) whose object identifier is already in the seen set fails
with "object identifier out of order"; a successful transition adds the
identifier to the seen set; and the concrete input with object order
A,A,B,A fails at line 4 — the record starting the second A block — with
exactly that error. -/
theorem c5_seen_objects :
    (∀ (fetch rc : String → String) (n : ℕ) (st : AgpSt) (obj : String)
        (objBeg objEnd pid : ℤ) (f4 f5 f6 f7 f8 : String),
      st.currObj ≠ some obj → objBeg = 1 → 1 ≤ objEnd →
      obj ∈ st.seenObjs →
      processRecord fetch rc n st obj objBeg objEnd pid f4 f5 f6 f7 f8
        = ([], st, some (log_err n "object identifier out of order"))) ∧
    (∀ (fetch rc : String → String) (n : ℕ) (st : AgpSt) (obj : String)
        (objBeg objEnd pid : ℤ) (f4 f5 f6 f7 f8 : String)
        (cs : List Chunk) (st' : AgpSt),
      processRecord fetch rc n st obj objBeg objEnd pid f4 f5 f6 f7 f8
        = (cs, st', none) →
      st.currObj ≠ some obj →
      st'.seenObjs = obj :: st.seenObjs ∧ obj ∈ st'.seenObjs) ∧
    ((runAgp (fun _ => "AAAAA") (fun t => t)
        ["A\t1\t5\t1\tW\tc\t1\t5\t+", "A\t6\t10\t2\tW\tc\t1\t5\t+",
         "B\t1\t5\t1\tW\tc\t1\t5\t+", "A\t1\t5\t1\tW\tc\t1\t5\t+"]).2.2
      = some (log_err 4 "object identifier out of order")) := by
  refine ⟨?_, ?_, by decide⟩
  · intro fetch rc n st obj objBeg objEnd pid f4 f5 f6 f7 f8
      ht hbeg hend hmem
    rw [processRecord, if_neg (by omega), if_neg (by omega), if_pos ht,
      if_neg (by omega), if_pos hmem]
  · intro fetch rc n st obj objBeg objEnd pid f4 f5 f6 f7 f8 cs st' h hne
    obtain ⟨-, -, hdr, bcs, compLen, st₀, -, -, hst', -, -, hcases⟩ :=
      processRecord_ok h
    rcases hcases with ⟨hsome, -, -⟩ | ⟨-, -, -, -, hreset, -⟩
    · exact absurd hsome hne
    · rw [hst', hreset]
      exact ⟨by simp [bumpState, resetState], by simp [bumpState, resetState]⟩

/-- Witness for c5_seen_objects: a record reopening the already-seen
object A while B is current fails; a fresh transition adds the object to
the seen set. -/
theorem c5_seen_objects_w :
    processRecord (fun _ => "AAAAA") (fun t => t) 4
        { prevPid := 1, currObj := some "B", seenObjs := ["B", "A"],
          currIntervals := [((0 : ℤ), (5 : ℤ))], pastComments := true,
          isFirst := false }
        "A" 1 5 1 "W" "c" "1" "5" "+"
      = ([], { prevPid := 1, currObj := some "B", seenObjs := ["B", "A"],
               currIntervals := [((0 : ℤ), (5 : ℤ))], pastComments := true,
               isFirst := false },
         some (log_err 4 "object identifier out of order")) ∧
    "s" ∈ ((processRecord (fun _ => "AAAAA") (fun t => t) 1 initSt "s"
        1 5 1 "W" "c" "1" "5" "+").2.1).seenObjs := by
  constructor
  · exact c5_seen_objects.1 (fun _ => "AAAAA") (fun t => t) 4 _ "A"
      1 5 1 "W" "c" "1" "5" "+" (by decide) rfl (by decide) (by decide)
  · exact (c5_seen_objects.2.1 (fun _ => "AAAAA") (fun t => t) 1 initSt "s"
      1 5 1 "W" "c" "1" "5" "+"
      (processRecord (fun _ => "AAAAA") (fun t => t) 1 initSt "s" 1 5 1
        "W" "c" "1" "5" "+").1
      (processRecord (fun _ => "AAAAA") (fun t => t) 1 initSt "s" 1 5 1
        "W" "c" "1" "5" "+").2.1 (by decide) (by decide)).2

/-- Claim C8: for a component record with well-formed component
coordinates, the emitted text is exactly the collaborator-retrieved
sequence of component_id when the orientation is one of the four forward
tokens, exactly its reverse complement when the orientation is "-", and
for any other orientation token the branch fails with "invalid
orientation" having emitted nothing. -/
theorem c8_orientation (fetch rc : String → String) (n : ℕ)
    (cid cbS ceS ori : String) (cb ce : ℤ)
    (hcb : parseInt cbS = some cb) (hce : parseInt ceS = some ce)
    (h1 : 1 ≤ cb) (h2 : cb ≤ ce) :
    (ori ∈ (["+", "?", "0", "na"] : List String) →
      compBranch fetch rc n cid cbS ceS ori
        = ([Chunk.seq (fetch cid)], Except.ok (ce - (cb - 1)))) ∧
    (ori = "-" →
      compBranch fetch rc n cid cbS ceS ori
        = ([Chunk.seq (rc (fetch cid))], Except.ok (ce - (cb - 1)))) ∧
    (ori ∉ (["+", "?", "0", "na"] : List String) → ori ≠ "-" →
      compBranch fetch rc n cid cbS ceS ori
        = ([], Except.error (log_err n "invalid orientation"))) := by
  refine ⟨?_, ?_, ?_⟩
  · intro hori
    simp only [compBranch, hcb, hce]
    rw [if_neg (by omega), if_neg (by omega), if_pos hori]
  · intro hori
    simp only [compBranch, hcb, hce]
    rw [if_neg (by omega), if_neg (by omega),
      if_neg (by rw [hori]; decide), if_pos hori]
  · intro hori hneg
    simp only [compBranch, hcb, hce]
    rw [if_neg (by omega), if_neg (by omega), if_neg hori, if_neg hneg]

/-- Witness for c8_orientation: forward, reverse and invalid orientation
tokens on a concrete component record. -/
theorem c8_orientation_w :
    compBranch (fun _ => "ACGT") (fun _ => "TGCA") 1 "c" "1" "4" "+"
      = ([Chunk.seq "ACGT"], Except.ok 4) ∧
    compBranch (fun _ => "ACGT") (fun _ => "TGCA") 1 "c" "1" "4" "-"
      = ([Chunk.seq "TGCA"], Except.ok 4) ∧
    compBranch (fun _ => "ACGT") (fun _ => "TGCA") 1 "c" "1" "4" "x"
      = ([], Except.error (log_err 1 "invalid orientation")) := by
  have h := c8_orientation (fun _ => "ACGT") (fun _ => "TGCA") 1 "c"
    "1" "4" "+" 1 4 (by decide) (by decide) (by decide) (by decide)
  have h2 := c8_orientation (fun _ => "ACGT") (fun _ => "TGCA") 1 "c"
    "1" "4" "-" 1 4 (by decide) (by decide) (by decide) (by decide)
  have h3 := c8_orientation (fun _ => "ACGT") (fun _ => "TGCA") 1 "c"
    "1" "4" "x" 1 4 (by decide) (by decide) (by decide) (by decide)
  exact ⟨h.1 (by decide), h2.2.1 rfl, h3.2.2 (by decide) (by decide)⟩

/-- Claim C6, counterexample to the claim as stated: on the example line
the program's error is the span-consistency message, not the U-length
message the claim (and spec) predict — the gap_length field is exactly
100, so the U check passes, and the later object/component length
comparison (100 versus the object span 50) is what fails. -/
theorem c6_counterexample :
    (runAgp (fun _ => "") (fun t => t)
        ["scaf1\t1\t50\t1\tU\t100\tscaffold\tyes\tna"]).2.2
      = some (log_err 1 "object and component coordinates have inconsistent lengths")
    ∧ log_err 1 "object and component coordinates have inconsistent lengths"
        ≠ log_err 1 "gaps of type 'U' must be 100 bp" :=
  ⟨by decide, by decide⟩

/-- Claim C6 (amended): a gap record of component_type U with valid gap
type and linkage and positive gap_length different from 100 fails with
"gaps of type 'U' must be 100 bp"; this U-length check precedes the
span-consistency check, so a U gap violating both rules reports the
U-length error regardless of the object span; but the example line has
gap_length exactly 100, passes the U check (third conjunct: its gap
branch succeeds and writes the 100 N characters), and fails the later
span-consistency check instead. -/
theorem c6_amended_gap_checks :
    (∀ (n : ℕ) (t f5 f6 f7 f8 : String) (g : ℤ),
      parseInt f5 = some g → f6 ∈ allowed_gap_types →
      f7 ∈ allowed_linkage_types → 1 ≤ g → t = "U" → g ≠ 100 →
      gapBranch n t f5 f6 f7 f8
        = ([], Except.error (log_err n "gaps of type 'U' must be 100 bp"))) ∧
    (∀ (fetch rc : String → String) (n : ℕ) (st : AgpSt) (hdr : List Chunk)
        (objBeg objEnd pid objLen : ℤ) (f5 f6 f7 f8 : String) (g : ℤ),
      pid - st.prevPid = 1 →
      parseInt f5 = some g → f6 ∈ allowed_gap_types →
      f7 ∈ allowed_linkage_types → 1 ≤ g → g ≠ 100 →
      recordRest fetch rc n st hdr objBeg objEnd pid objLen "U" f5 f6 f7 f8
        = (hdr, bumpState st pid objBeg objEnd,
           some (log_err n "gaps of type 'U' must be 100 bp"))) ∧
    (gapBranch 1 "U" "100" "scaffold" "yes" "na"
      = ([Chunk.seq (String.mk (List.replicate 100 'N'))], Except.ok 100)) := by
  have hgapErr : ∀ (n : ℕ) (t f5 f6 f7 f8 : String) (g : ℤ),
      parseInt f5 = some g → f6 ∈ allowed_gap_types →
      f7 ∈ allowed_linkage_types → 1 ≤ g → t = "U" → g ≠ 100 →
      gapBranch n t f5 f6 f7 f8
        = ([], Except.error (log_err n "gaps of type 'U' must be 100 bp")) := by
    intro n t f5 f6 f7 f8 g hg h6 h7 hge ht h100
    subst ht
    simp only [gapBranch, hg]
    rw [if_neg (by simp [h6]), if_neg (by simp [h7]), if_neg (by omega),
      if_pos (by simp [h100])]
  refine ⟨hgapErr, ?_, by rfl⟩
  intro fetch rc n st hdr objBeg objEnd pid objLen f5 f6 f7 f8 g
    hpid hg h6 h7 hge h100
  rw [recordRest, if_neg (by omega), if_neg (by decide), if_neg (by decide),
    hgapErr n "U" f5 f6 f7 f8 g hg h6 h7 hge rfl h100]
  simp

/-- Witness for c6_amended_gap_checks: a U gap of length 5 (valid gap
type, linkage, evidence) fails with the U-length message, both at the gap
branch and through the record pipeline where the span also disagrees. -/
theorem c6_amended_gap_checks_w :
    gapBranch 2 "U" "5" "contig" "no" "na"
      = ([], Except.error (log_err 2 "gaps of type 'U' must be 100 bp")) ∧
    recordRest (fun _ => "") (fun t => t) 2 initSt [] 1 50 1 50
        "U" "5" "contig" "no" "na"
      = ([], bumpState initSt 1 1 50,
         some (log_err 2 "gaps of type 'U' must be 100 bp")) := by
  constructor
  · exact c6_amended_gap_checks.1 2 "U" "5" "contig" "no" "na" 5
      (by decide) (by decide) (by decide) (by decide) rfl (by decide)
  · exact c6_amended_gap_checks.2.1 (fun _ => "") (fun t => t) 2 initSt []
      1 50 1 50 "5" "contig" "no" "na" 5 (by decide) (by decide)
      (by decide) (by decide) (by decide) (by decide)

lemma compBranch_err {fetch rc : String → String} {n : ℕ}
    {cid cbS ceS ori : String} {cs : List Chunk} {e : Err}
    (h : compBranch fetch rc n cid cbS ceS ori = (cs, Except.error e)) :
    e = Err.valueError ∨ ∃ msg, e = Err.tagged n msg := by
  cases hcb : parseInt cbS with
  | none =>
    simp only [compBranch, hcb, Prod.mk.injEq, Except.error.injEq] at h
    exact Or.inl h.2.symm
  | some cb =>
    cases hce : parseInt ceS with
    | none =>
      simp only [compBranch, hcb, hce, Prod.mk.injEq, Except.error.injEq] at h
      exact Or.inl h.2.symm
    | some ce =>
      simp only [compBranch, hcb, hce] at h
      by_cases h1 : cb < 1 ∨ ce < 1
      · rw [if_pos h1] at h
        simp only [Prod.mk.injEq, Except.error.injEq] at h
        exact Or.inr ⟨_, h.2.symm⟩
      · rw [if_neg h1] at h
        by_cases h2 : cb > ce
        · rw [if_pos h2] at h
          simp only [Prod.mk.injEq, Except.error.injEq] at h
          exact Or.inr ⟨_, h.2.symm⟩
        · rw [if_neg h2] at h
          by_cases h3 : ori ∈ (["+", "?", "0", "na"] : List String)
          · rw [if_pos h3] at h; simp at h
          · rw [if_neg h3] at h
            by_cases h4 : ori = "-"
            · rw [if_pos h4] at h; simp at h
            · rw [if_neg h4] at h
              simp only [Prod.mk.injEq, Except.error.injEq] at h
              exact Or.inr ⟨_, h.2.symm⟩

lemma gapBranch_err {n : ℕ} {t f5 f6 f7 f8 : String} {cs : List Chunk}
    {e : Err} (h : gapBranch n t f5 f6 f7 f8 = (cs, Except.error e)) :
    e = Err.valueError ∨ ∃ msg, e = Err.tagged n msg := by
  cases hg : parseInt f5 with
  | none =>
    simp only [gapBranch, hg, Prod.mk.injEq, Except.error.injEq] at h
    exact Or.inl h.2.symm
  | some g =>
    simp only [gapBranch, hg] at h
    by_cases h1 : f6 ∉ allowed_gap_types
    · rw [if_pos h1] at h
      simp only [Prod.mk.injEq, Except.error.injEq] at h
      exact Or.inr ⟨_, h.2.symm⟩
    · rw [if_neg h1] at h
      by_cases h2 : f7 ∉ allowed_linkage_types
      · rw [if_pos h2] at h
        simp only [Prod.mk.injEq, Except.error.injEq] at h
        exact Or.inr ⟨_, h.2.symm⟩
      · rw [if_neg h2] at h
        by_cases h3 : g < 1
        · rw [if_pos h3] at h
          simp only [Prod.mk.injEq, Except.error.injEq] at h
          exact Or.inr ⟨_, h.2.symm⟩
        · rw [if_neg h3] at h
          by_cases h4 : t = "U" ∧ g ≠ 100
          · rw [if_pos h4] at h
            simp only [Prod.mk.injEq, Except.error.injEq] at h
            exact Or.inr ⟨_, h.2.symm⟩
          · rw [if_neg h4] at h
            by_cases h5 : ¬ (pySplitChar ';' f8).all
                (fun x => x ∈ allowed_evidence_types)
            · rw [if_pos h5] at h
              simp only [Prod.mk.injEq, Except.error.injEq] at h
              exact Or.inr ⟨_, h.2.symm⟩
            · rw [if_neg h5] at h; simp at h

lemma recordRest_err {fetch rc : String → String} {n : ℕ} {st : AgpSt}
    {hdr cs : List Chunk} {objBeg objEnd pid objLen : ℤ}
    {f4 f5 f6 f7 f8 : String} {st' : AgpSt} {e : Err}
    (h : recordRest fetch rc n st hdr objBeg objEnd pid objLen f4 f5 f6 f7 f8
      = (cs, st', some e)) :
    e = Err.valueError ∨ ∃ msg, e = Err.tagged n msg := by
  rw [recordRest] at h
  by_cases h1 : pid - st.prevPid ≠ 1
  · rw [if_pos h1] at h
    simp only [Prod.mk.injEq, Option.some.injEq] at h
    exact Or.inr ⟨_, h.2.2.symm⟩
  · rw [if_neg h1] at h
    by_cases h2 : f4 ∉ allowed_comp_types
    · rw [if_pos h2] at h
      simp only [Prod.mk.injEq, Option.some.injEq] at h
      exact Or.inr ⟨_, h.2.2.symm⟩
    · rw [if_neg h2] at h
      cases hb : (if f4 ≠ "N" ∧ f4 ≠ "U" then compBranch fetch rc n f5 f6 f7 f8
                  else gapBranch n f4 f5 f6 f7 f8) with
      | mk bcs r =>
        rw [hb] at h
        cases r with
        | error eb =>
          dsimp only at h
          simp only [Prod.mk.injEq, Option.some.injEq] at h
          rw [← h.2.2]
          by_cases h4 : f4 ≠ "N" ∧ f4 ≠ "U"
          · rw [if_pos h4] at hb
            exact compBranch_err hb
          · rw [if_neg h4] at hb
            exact gapBranch_err hb
        | ok compLen =>
          dsimp only at h
          by_cases h3 : compLen ≠ objLen
          · rw [if_pos h3] at h
            simp only [Prod.mk.injEq, Option.some.injEq] at h
            exact Or.inr ⟨_, h.2.2.symm⟩
          · rw [if_neg h3] at h
            simp at h

lemma processRecord_err {fetch rc : String → String} {n : ℕ} {st : AgpSt}
    {obj : String} {objBeg objEnd pid : ℤ} {f4 f5 f6 f7 f8 : String}
    {cs : List Chunk} {st' : AgpSt} {e : Err}
    (h : processRecord fetch rc n st obj objBeg objEnd pid f4 f5 f6 f7 f8
      = (cs, st', some e)) :
    e = Err.valueError ∨ ∃ msg, e = Err.tagged n msg := by
  rw [processRecord] at h
  by_cases hc1 : objBeg < 1 ∨ objEnd < 1
  · rw [if_pos hc1] at h
    simp only [Prod.mk.injEq, Option.some.injEq] at h
    exact Or.inr ⟨_, h.2.2.symm⟩
  · rw [if_neg hc1] at h
    by_cases hc2 : objBeg > objEnd
    · rw [if_pos hc2] at h
      simp only [Prod.mk.injEq, Option.some.injEq] at h
      exact Or.inr ⟨_, h.2.2.symm⟩
    · rw [if_neg hc2] at h
      by_cases ht : st.currObj ≠ some obj
      · rw [if_pos ht] at h
        by_cases h1 : objBeg ≠ 1
        · rw [if_pos h1] at h
          simp only [Prod.mk.injEq, Option.some.injEq] at h
          exact Or.inr ⟨_, h.2.2.symm⟩
        · rw [if_neg h1] at h
          by_cases h2 : obj ∈ st.seenObjs
          · rw [if_pos h2] at h
            simp only [Prod.mk.injEq, Option.some.injEq] at h
            exact Or.inr ⟨_, h.2.2.symm⟩
          · rw [if_neg h2] at h
            by_cases h3 : ¬ (st.isFirst = true) ∧ is_covered st.currIntervals = false
            · rw [if_pos h3] at h
              simp only [Prod.mk.injEq, Option.some.injEq] at h
              exact Or.inr ⟨_, h.2.2.symm⟩
            · rw [if_neg h3] at h
              exact recordRest_err h
      · rw [if_neg ht] at h
        exact recordRest_err h

lemma processBody_err {fetch rc : String → String} {n : ℕ} {st : AgpSt}
    {fields : List String} {cs : List Chunk} {st' : AgpSt} {e : Err}
    (h : processBody fetch rc n st fields = (cs, st', some e)) :
    e = Err.valueError ∨ ∃ msg, e = Err.tagged n msg := by
  rw [processBody] at h
  by_cases h1 : fields.length ≠ 9
  · rw [if_pos h1] at h
    simp only [Prod.mk.injEq, Option.some.injEq] at h
    exact Or.inr ⟨_, h.2.2.symm⟩
  · rw [if_neg h1] at h
    by_cases h2 : ¬ (fields.all (fun f => f ≠ ""))
    · rw [if_pos h2] at h
      simp only [Prod.mk.injEq, Option.some.injEq] at h
      exact Or.inr ⟨_, h.2.2.symm⟩
    · rw [if_neg h2] at h
      cases hp1 : parseInt (fields.getD 1 "") with
      | none =>
        rw [hp1] at h
        dsimp only at h
        simp only [Prod.mk.injEq, Option.some.injEq] at h
        exact Or.inl h.2.2.symm
      | some objBeg =>
        cases hp2 : parseInt (fields.getD 2 "") with
        | none =>
          rw [hp1, hp2] at h
          dsimp only at h
          simp only [Prod.mk.injEq, Option.some.injEq] at h
          exact Or.inl h.2.2.symm
        | some objEnd =>
          cases hp3 : parseInt (fields.getD 3 "") with
          | none =>
            rw [hp1, hp2, hp3] at h
            dsimp only at h
            simp only [Prod.mk.injEq, Option.some.injEq] at h
            exact Or.inl h.2.2.symm
          | some pid =>
            rw [hp1, hp2, hp3] at h
            dsimp only at h
            exact processRecord_err h

lemma processLine_err {fetch rc : String → String} {n : ℕ} {st : AgpSt}
    {line : String} {cs : List Chunk} {st' : AgpSt} {e : Err}
    (h : processLine fetch rc n st line = (cs, st', some e)) :
    e = Err.valueError ∨ ∃ msg, e = Err.tagged n msg := by
  rw [processLine] at h
  by_cases hc : pyStartsHash line
  · rw [if_pos hc] at h
    by_cases hp : st.pastComments
    · rw [if_pos hp] at h
      simp only [Prod.mk.injEq, Option.some.injEq] at h
      exact Or.inr ⟨_, h.2.2.symm⟩
    · rw [if_neg hp] at h
      simp at h
  · rw [if_neg hc] at h
    exact processBody_err h

/-- Claim C7, counterexample to the claim as stated: a body line whose
object_begin field is not an integer makes the run fail with the bare
ValueError of the int() conversion, which carries no line number — not a
line-tagged error. -/
theorem c7_counterexample :
    (runAgp (fun _ => "") (fun t => t) ["a\tx\t3\t1\tW\tc\t1\t3\t+"]).2.2
      = some Err.valueError := by decide

/-- Claim C7 (amended): every failure the validator raises itself (via
log_err) is a single error carrying the 1-based input line number of the
offending line together with a human-readable reason — any tagged error
produced while processing line n carries exactly n; but a body line whose
object_begin, object_end, part_number, component coordinate or gap length
field does not parse as an integer instead raises the interpreter's
untagged ValueError, which carries no line number. -/
theorem c7_amended_error_reporting :
    (∀ (fetch rc : String → String) (n : ℕ) (st : AgpSt) (line : String)
        (cs : List Chunk) (st' : AgpSt) (m : ℕ) (msg : String),
      processLine fetch rc n st line = (cs, st', some (Err.tagged m msg)) →
      m = n) ∧
    (∀ (fetch rc : String → String) (n : ℕ) (st : AgpSt)
        (f0 f1 f2 f3 f4 f5 f6 f7 f8 : String),
      (([f0, f1, f2, f3, f4, f5, f6, f7, f8] : List String).all
        (fun f => f ≠ "")) = true →
      (parseInt f1 = none ∨ parseInt f2 = none ∨ parseInt f3 = none) →
      processBody fetch rc n st [f0, f1, f2, f3, f4, f5, f6, f7, f8]
        = ([], st, some Err.valueError)) ∧
    (∀ (fetch rc : String → String) (n : ℕ) (cid cbS ceS ori : String),
      (parseInt cbS = none ∨ parseInt ceS = none) →
      compBranch fetch rc n cid cbS ceS ori
        = ([], Except.error Err.valueError)) ∧
    (∀ (n : ℕ) (t gapLenS f6 f7 f8 : String),
      parseInt gapLenS = none →
      gapBranch n t gapLenS f6 f7 f8 = ([], Except.error Err.valueError)) ∧
    (∀ (fetch rc : String → String) (n : ℕ) (st : AgpSt)
        (hdr : List Chunk) (objBeg objEnd pid objLen : ℤ)
        (f4 f5 f6 f7 f8 : String) (bcs : List Chunk) (e : Err),
      pid - st.prevPid = 1 →
      f4 ∈ allowed_comp_types →
      (if f4 ≠ "N" ∧ f4 ≠ "U" then compBranch fetch rc n f5 f6 f7 f8
       else gapBranch n f4 f5 f6 f7 f8) = (bcs, Except.error e) →
      recordRest fetch rc n st hdr objBeg objEnd pid objLen f4 f5 f6 f7 f8
        = (hdr ++ bcs, bumpState st pid objBeg objEnd, some e)) := by
  refine ⟨?_, ?_, ?_, ?_, ?_⟩
  · intro fetch rc n st line cs st' m msg h
    rcases processLine_err h with hv | ⟨msg', ht⟩
    · cases hv
    · simp only [Err.tagged.injEq] at ht
      exact ht.1
  · intro fetch rc n st f0 f1 f2 f3 f4 f5 f6 f7 f8 hne hp
    rw [processBody, if_neg (by simp), if_neg (by simp_all)]
    simp only [List.getD_cons_succ, List.getD_cons_zero]
    cases hp1 : parseInt f1 with
    | none => rfl
    | some a =>
      cases hp2 : parseInt f2 with
      | none => rfl
      | some b =>
        cases hp3 : parseInt f3 with
        | none => rfl
        | some c => rcases hp with h | h | h <;> simp_all
  · intro fetch rc n cid cbS ceS ori hp
    cases hp1 : parseInt cbS with
    | none => simp only [compBranch, hp1]
    | some a =>
      cases hp2 : parseInt ceS with
      | none => simp only [compBranch, hp1, hp2]
      | some b => rcases hp with h | h <;> simp_all
  · intro n t gapLenS f6 f7 f8 hp
    simp only [gapBranch, hp]
  · intro fetch rc n st hdr objBeg objEnd pid objLen f4 f5 f6 f7 f8 bcs e
      hpid hmem hb
    rw [recordRest, if_neg (by omega), if_neg (by simp [hmem]), hb]

/-- Witness for c7_amended_error_reporting: non-integer object_begin,
object_end and part_number fields each yield the untagged ValueError from
the body-line parse; non-integer component coordinates yield it from the
component branch; a non-integer gap length yields it from the gap branch
and propagates through recordRest; and a concrete tagged failure carries
line number 3. -/
theorem c7_amended_error_reporting_w :
    (processBody (fun _ => "") (fun t => t) 1 initSt
        ["a", "x", "3", "1", "W", "c", "1", "3", "+"]
      = ([], initSt, some Err.valueError)) ∧
    (processBody (fun _ => "") (fun t => t) 1 initSt
        ["a", "1", "q", "1", "W", "c", "1", "3", "+"]
      = ([], initSt, some Err.valueError)) ∧
    (processBody (fun _ => "") (fun t => t) 1 initSt
        ["a", "1", "3", "p", "W", "c", "1", "3", "+"]
      = ([], initSt, some Err.valueError)) ∧
    (compBranch (fun _ => "") (fun t => t) 1 "c" "y" "4" "+"
      = ([], Except.error Err.valueError)) ∧
    (compBranch (fun _ => "") (fun t => t) 1 "c" "1" "z" "+"
      = ([], Except.error Err.valueError)) ∧
    (gapBranch 1 "N" "z" "contig" "no" "na"
      = ([], Except.error Err.valueError)) ∧
    (recordRest (fun _ => "") (fun t => t) 1 initSt [] 1 3 1 3
        "N" "z" "contig" "no" "na"
      = ([] ++ [], bumpState initSt 1 1 3, some Err.valueError)) ∧
    (3 : ℕ) = 3 := by
  refine ⟨?_, ?_, ?_, ?_, ?_, ?_, ?_, ?_⟩
  · exact c7_amended_error_reporting.2.1 (fun _ => "") (fun t => t) 1 initSt
      "a" "x" "3" "1" "W" "c" "1" "3" "+" (by decide) (Or.inl (by decide))
  · exact c7_amended_error_reporting.2.1 (fun _ => "") (fun t => t) 1 initSt
      "a" "1" "q" "1" "W" "c" "1" "3" "+" (by decide)
      (Or.inr (Or.inl (by decide)))
  · exact c7_amended_error_reporting.2.1 (fun _ => "") (fun t => t) 1 initSt
      "a" "1" "3" "p" "W" "c" "1" "3" "+" (by decide)
      (Or.inr (Or.inr (by decide)))
  · exact c7_amended_error_reporting.2.2.1 (fun _ => "") (fun t => t) 1
      "c" "y" "4" "+" (Or.inl (by decide))
  · exact c7_amended_error_reporting.2.2.1 (fun _ => "") (fun t => t) 1
      "c" "1" "z" "+" (Or.inr (by decide))
  · exact c7_amended_error_reporting.2.2.2.1 1 "N" "z" "contig" "no" "na"
      (by decide)
  · exact c7_amended_error_reporting.2.2.2.2 (fun _ => "") (fun t => t) 1
      initSt [] 1 3 1 3 "N" "z" "contig" "no" "na" [] Err.valueError
      (by decide) (by decide) (by rfl)
  · exact c7_amended_error_reporting.1 (fun _ => "") (fun t => t) 3
      { initSt with pastComments := true } "not a body line"
      (processLine (fun _ => "") (fun t => t) 3
        { initSt with pastComments := true } "not a body line").1
      (processLine (fun _ => "") (fun t => t) 3
        { initSt with pastComments := true } "not a body line").2.1
      3 "lines should have 9 tab delimited fields" (by decide)

lemma recordRest_parts (fetch rc : String → String) (n : ℕ) (st : AgpSt)
    (hdr : List Chunk) (objBeg objEnd pid objLen : ℤ)
    (f4 f5 f6 f7 f8 : String) :
    ∃ tail,
      (recordRest fetch rc n st hdr objBeg objEnd pid objLen
        f4 f5 f6 f7 f8).1 = hdr ++ tail ∧
      ((recordRest fetch rc n st hdr objBeg objEnd pid objLen
        f4 f5 f6 f7 f8).2.1).seenObjs = st.seenObjs := by
  rw [recordRest]
  by_cases h1 : pid - st.prevPid ≠ 1
  · rw [if_pos h1]
    exact ⟨[], by simp, rfl⟩
  · rw [if_neg h1]
    by_cases h2 : f4 ∉ allowed_comp_types
    · rw [if_pos h2]
      exact ⟨[], by simp, by simp [bumpState]⟩
    · rw [if_neg h2]
      cases hb : (if f4 ≠ "N" ∧ f4 ≠ "U" then compBranch fetch rc n f5 f6 f7 f8
                  else gapBranch n f4 f5 f6 f7 f8) with
      | mk bcs r =>
        cases r with
        | error eb =>
          dsimp only
          exact ⟨bcs, rfl, by simp [bumpState]⟩
        | ok compLen =>
          dsimp only
          by_cases h3 : compLen ≠ objLen
          · rw [if_pos h3]
            exact ⟨bcs, rfl, by simp [bumpState]⟩
          · rw [if_neg h3]
            exact ⟨bcs, rfl, by simp [bumpState]⟩

/-- Claim C10: output and state changes are not rolled back on error.
First part: a record that starts a new object and passes every transition
check but whose processing then fails with any later per-line error has
already written the new object's FASTA header into the output chunks and
already added its identifier to the seen set at the moment of the raise.
Second part: a component record that passes every check up to and
including the orientation dispatch (its branch succeeded and emitted the
sequence chunk) but fails the final span-length consistency check returns
with that sequence already written. -/
theorem c10_no_rollback :
    (∀ (fetch rc : String → String) (n : ℕ) (st : AgpSt) (obj : String)
        (objBeg objEnd pid : ℤ) (f4 f5 f6 f7 f8 : String)
        (cs : List Chunk) (st' : AgpSt) (e : Err),
      st.currObj ≠ some obj → objBeg = 1 → 1 ≤ objEnd →
      obj ∉ st.seenObjs →
      (st.isFirst = false → is_covered st.currIntervals = true) →
      processRecord fetch rc n st obj objBeg objEnd pid f4 f5 f6 f7 f8
        = (cs, st', some e) →
      Chunk.header obj ∈ cs ∧ obj ∈ st'.seenObjs) ∧
    (∀ (fetch rc : String → String) (n : ℕ) (st : AgpSt) (hdr : List Chunk)
        (objBeg objEnd pid objLen : ℤ) (f4 f5 f6 f7 f8 σ : String)
        (compLen : ℤ),
      pid - st.prevPid = 1 → f4 ∈ allowed_comp_types →
      f4 ≠ "N" → f4 ≠ "U" →
      compBranch fetch rc n f5 f6 f7 f8 = ([Chunk.seq σ], Except.ok compLen) →
      compLen ≠ objLen →
      recordRest fetch rc n st hdr objBeg objEnd pid objLen f4 f5 f6 f7 f8
        = (hdr ++ [Chunk.seq σ], bumpState st pid objBeg objEnd,
           some (log_err n "object and component coordinates have inconsistent lengths"))) := by
  constructor
  · intro fetch rc n st obj objBeg objEnd pid f4 f5 f6 f7 f8 cs st' e
      hne hbeg hend hseen hcov h
    rw [processRecord, if_neg (by omega), if_neg (by omega), if_pos hne,
      if_neg (by omega), if_neg hseen,
      if_neg (by
        rintro ⟨hx, hy⟩
        have hf : st.isFirst = false := by
          cases hI : st.isFirst
          · rfl
          · exact absurd hI hx
        rw [hcov hf] at hy
        cases hy)] at h
    obtain ⟨tail, htl, hsn⟩ := recordRest_parts fetch rc n
      (resetState st obj)
      ((if st.isFirst then [] else [Chunk.sep]) ++ [Chunk.header obj])
      objBeg objEnd pid (objEnd - (objBeg - 1)) f4 f5 f6 f7 f8
    rw [h] at htl hsn
    dsimp only at htl hsn
    constructor
    · rw [htl]
      cases st.isFirst <;> simp
    · rw [hsn]
      simp [resetState]
  · intro fetch rc n st hdr objBeg objEnd pid objLen f4 f5 f6 f7 f8 σ
      compLen hpid hmem hN hU hcb hlen
    rw [recordRest, if_neg (by omega), if_neg (by simp [hmem]),
      if_pos ⟨hN, hU⟩, hcb]
    dsimp only
    rw [if_pos hlen]

/-- Witness for c10_no_rollback: a new object whose first record carries
part number 2 fails the part-continuity check, yet its header chunk is in
the output and its identifier in the seen set; and a component record of
declared length 4 inside an object span of 99 fails only the
span-consistency check, with the fetched sequence already written. -/
theorem c10_no_rollback_w :
    (Chunk.header "s" ∈ (processRecord (fun _ => "ACGT") (fun t => t) 1
        initSt "s" 1 99 2 "W" "c" "1" "4" "+").1 ∧
      "s" ∈ ((processRecord (fun _ => "ACGT") (fun t => t) 1
        initSt "s" 1 99 2 "W" "c" "1" "4" "+").2.1).seenObjs) ∧
    recordRest (fun _ => "ACGT") (fun t => t) 1 initSt [] 1 99 1 99
        "W" "c" "1" "4" "+"
      = ([Chunk.seq "ACGT"], bumpState initSt 1 1 99,
         some (log_err 1 "object and component coordinates have inconsistent lengths")) := by
  constructor
  · exact c10_no_rollback.1 (fun _ => "ACGT") (fun t => t) 1 initSt "s"
      1 99 2 "W" "c" "1" "4" "+"
      (processRecord (fun _ => "ACGT") (fun t => t) 1 initSt "s" 1 99 2
        "W" "c" "1" "4" "+").1
      (processRecord (fun _ => "ACGT") (fun t => t) 1 initSt "s" 1 99 2
        "W" "c" "1" "4" "+").2.1
      (log_err 1 "non-sequential part_numbers")
      (by decide) rfl (by decide) (by decide) (by decide) (by decide)
  · have hcb : compBranch (fun _ => "ACGT") (fun t => t) 1 "c" "1" "4" "+"
        = ([Chunk.seq "ACGT"], Except.ok 4) := by rfl
    exact c10_no_rollback.2 (fun _ => "ACGT") (fun t => t) 1 initSt []
      1 99 1 99 "W" "c" "1" "4" "+" "ACGT" 4 (by decide) (by decide)
      (by decide) (by decide) hcb (by decide)
